import Mathlib

/-!
Verification of the OP-Crime PDF extraction / reconciliation pipeline.

This file shallowly embeds the core logic of the repository (utils.py,
OakPark_Crime_Reporting_Web.py, and the historical extractor under
downloaded_pdfs/) into Lean 4 and proves the specification claims about it.

Python strings are modelled as `List Char` over the ASCII/BMP fragment the
program actually manipulates.  The `re` patterns of the source are embedded
through a small backtracking regex engine (`Re`, `mmatch`, `findall`) whose
alternation order, greedy/lazy quantifiers and capture semantics follow
Python's `re` module for the fixed patterns used by the program.
-/

namespace OPCrime

set_option maxRecDepth 100000

abbrev Str := List Char

/-- Python whitespace (`\s`, `str.strip`, `str.split`), ASCII fragment:
space, tab, newline, carriage return, form feed, vertical tab. -/
def isWs (c : Char) : Bool :=
  c = ' ' || c = '\t' || c = '\n' || c = '\x0d' || c = '\x0c' || c = '\x0b'

/-- `string.punctuation` of Python: the 32 ASCII punctuation characters,
given by their codepoint ranges 33-47, 58-64, 91-96, 123-126. -/
def isPunct (c : Char) : Bool :=
  (33 ≤ c.toNat && c.toNat ≤ 47) || (58 ≤ c.toNat && c.toNat ≤ 64) ||
  (91 ≤ c.toNat && c.toNat ≤ 96) || (123 ≤ c.toNat && c.toNat ≤ 126)

/-- ASCII lower-casing, modelling `str.lower` on the ASCII fragment. -/
def lowerC (c : Char) : Char :=
  if 65 ≤ c.toNat && c.toNat ≤ 90 then Char.ofNat (c.toNat + 32) else c

/-- ASCII upper-casing, modelling `str.upper` on the ASCII fragment. -/
def upperC (c : Char) : Char :=
  if 97 ≤ c.toNat && c.toNat ≤ 122 then Char.ofNat (c.toNat - 32) else c

def pyLower (s : Str) : Str := s.map lowerC

/-- `str.strip()`: drop leading and trailing whitespace. -/
def pyStrip (s : Str) : Str :=
  ((s.dropWhile isWs).reverse.dropWhile isWs).reverse

/-- `str.translate(str.maketrans(a, a, string.punctuation))`: delete all
punctuation characters. -/
def removePunct (s : Str) : Str := s.filter (fun c => !isPunct c)

/-- `re.sub(r"\s+", " ", s)`: replace every maximal whitespace run by a
single space.  (A whitespace character whose successor is also whitespace
is dropped; the last character of each run becomes the space.) -/
def collapseWs : Str → Str
  | [] => []
  | [c] => if isWs c then [' '] else [c]
  | c :: d :: cs =>
    if isWs c then
      if isWs d then collapseWs (d :: cs) else ' ' :: collapseWs (d :: cs)
    else c :: collapseWs (d :: cs)

/-- Worker for `str.split()`: `acc` holds the current word, reversed. -/
def splitWsAux (acc : Str) : Str → List Str
  | [] => if acc = [] then [] else [acc.reverse]
  | c :: cs =>
    if isWs c then
      if acc = [] then splitWsAux [] cs else acc.reverse :: splitWsAux [] cs
    else splitWsAux (c :: acc) cs

/-- `str.split()`: split on whitespace runs, dropping empty pieces. -/
def splitWs (s : Str) : List Str := splitWsAux [] s

/-- `" ".join(ws)`. -/
def joinWords : List Str → Str
  | [] => []
  | [w] => w
  | w :: v :: ws => w ++ ' ' :: joinWords (v :: ws)

/-! ## A small backtracking regex engine

Just enough of Python's `re` to embed the fixed patterns of the program:
character classes, literals, counted repetition of a class (greedy or lazy),
alternation (first-alternative preference), capture groups, positive
lookahead, and the end anchor.  Matching is continuation-passing with full
backtracking, which reproduces Python's leftmost / first-alternative /
greedy-preference semantics for these constructs. -/

/-- Capture list: group index to captured text (empty when unset). -/
abbrev Caps := List Str

inductive Re where
  | eps : Re
  | cls (p : Char → Bool) : Re
  | lit (s : Str) : Re
  | cat (a b : Re) : Re
  | alt (a b : Re) : Re
  | rep (p : Char → Bool) (lo : Nat) (hi : Option Nat) (greedy : Bool) : Re
  | grp (idx : Nat) (r : Re) : Re
  | look (r : Re) : Re
  | eos : Re

/-- Count of leading characters satisfying `p`. -/
def countLeading (p : Char → Bool) : Str → Nat
  | [] => 0
  | c :: cs => if p c then countLeading p cs + 1 else 0

/-- Candidate repetition counts, in the order backtracking tries them. -/
def repCounts (lo tk : Nat) (greedy : Bool) : List Nat :=
  if tk < lo then []
  else
    let base := (List.range (tk + 1 - lo)).map (fun n => n + lo)
    if greedy then base.reverse else base

/-- Try each candidate count in order, resuming the continuation. -/
def tryCounts (ns : List Nat) (s : Str) (caps : Caps)
    (k : Str → Caps → Option (Str × Caps)) : Option (Str × Caps) :=
  match ns with
  | [] => none
  | n :: rest =>
    match k (s.drop n) caps with
    | some r => some r
    | none => tryCounts rest s caps k

/-- CPS matcher: match `r` at the front of `s`, then run the continuation
on the remaining input.  Backtracking is realized by the continuation
returning `none`. -/
def mmatch : Re → Str → Caps → (Str → Caps → Option (Str × Caps)) →
    Option (Str × Caps)
  | .eps, s, caps, k => k s caps
  | .cls p, s, caps, k =>
    match s with
    | [] => none
    | c :: rest => if p c then k rest caps else none
  | .lit l, s, caps, k =>
    if l.isPrefixOf s then k (s.drop l.length) caps else none
  | .cat a b, s, caps, k =>
    mmatch a s caps (fun s2 c2 => mmatch b s2 c2 k)
  | .alt a b, s, caps, k =>
    match mmatch a s caps k with
    | some r => some r
    | none => mmatch b s caps k
  | .rep p lo hi greedy, s, caps, k =>
    let tk := min (countLeading p s) (hi.getD (countLeading p s))
    tryCounts (repCounts lo tk greedy) s caps k
  | .grp i r, s, caps, k =>
    mmatch r s caps (fun s2 c2 => k s2 (c2.set i (s.take (s.length - s2.length))))
  | .look r, s, caps, k =>
    match mmatch r s caps (fun s2 c2 => some (s2, c2)) with
    | some (_, c2) => k s c2
    | none => none
  | .eos, s, caps, k => if s.isEmpty then k s caps else none

/-- Match `r` at the start of `s` (like an anchored attempt inside
`re.search`); returns remaining input and captures. -/
def matchHere (r : Re) (ng : Nat) (s : Str) : Option (Str × Caps) :=
  mmatch r s (List.replicate ng []) (fun s2 c2 => some (s2, c2))

/-- `re.findall`: scan left to right for non-overlapping matches, returning
the capture lists of each match. -/
def findallAux (r : Re) (ng : Nat) : Nat → Str → List Caps
  | 0, _ => []
  | fuel + 1, s =>
    match matchHere r ng s with
    | some (s2, c2) =>
      if s.length - s2.length = 0 then
        match s with
        | [] => [c2]
        | _ :: tl => c2 :: findallAux r ng fuel tl
      else c2 :: findallAux r ng fuel s2
    | none =>
      match s with
      | [] => []
      | _ :: tl => findallAux r ng fuel tl

def findall (r : Re) (ng : Nat) (s : Str) : List Caps :=
  findallAux r ng (s.length + 1) s

/-- `re.findall` for a single-group pattern: list of group-1 captures. -/
def findall1 (r : Re) (s : Str) : List Str :=
  (findall r 1 s).map (fun caps => caps.getD 0 [])

/-- `re.search`: captures of the first match, scanning left to right. -/
def reSearchAux (r : Re) (ng : Nat) : Nat → Str → Option Caps
  | 0, _ => none
  | fuel + 1, s =>
    match matchHere r ng s with
    | some (_, c2) => some c2
    | none =>
      match s with
      | [] => none
      | _ :: tl => reSearchAux r ng fuel tl

def reSearch (r : Re) (ng : Nat) (s : Str) : Option Caps :=
  reSearchAux r ng (s.length + 1) s

/-- Sequence a list of regex pieces. -/
def seqRe (rs : List Re) : Re := rs.foldr .cat .eps

/-- Alternate a list of regex pieces, first-preference order. -/
def altRe : List Re → Re
  | [] => .eps
  | [r] => r
  | r :: rs => .alt r (altRe rs)

def litS (s : String) : Re := .lit s.toList

/-! ## Date parsing (`utils.parse_date`) -/

def isDigitB (c : Char) : Bool := c.isDigit

def isAlphaB (c : Char) : Bool := c.isAlpha

/-- The separator class of `re.sub(r"\s*[-–—/]\s*", "-", date_str)`:
hyphen, en-dash, em-dash, slash. -/
def isDashSl (c : Char) : Bool := c = '-' || c = '–' || c = '—' || c = '/'

/-- Worker for `re.sub(r"\s*[SEP]\s*", "-", s)`.  `pend` is pending
whitespace (reversed) that may yet become the leading `\s*` of a match;
`skip` is true while consuming the trailing `\s*` of a finished match. -/
def subSepAux (p : Char → Bool) : Str → Str → Bool → Str
  | [], pend, _ => pend.reverse
  | c :: cs, pend, skip =>
    if skip then
      if isWs c then subSepAux p cs [] true
      else if p c then '-' :: subSepAux p cs [] true
      else c :: subSepAux p cs [] false
    else
      if p c then '-' :: subSepAux p cs [] true
      else if isWs c then subSepAux p cs (c :: pend) false
      else pend.reverse ++ (c :: subSepAux p cs [] false)

/-- `re.sub(r"\s*[SEP]\s*", "-", s)` for a separator class `p`: each
separator character, with any surrounding whitespace, becomes a single
hyphen. -/
def subSepClass (p : Char → Bool) (s : Str) : Str := subSepAux p s [] false

/-- `re.sub(r"\s*[-–—/]\s*", "-", s)` of `utils.parse_date`. -/
def subDashes : Str → Str := subSepClass isDashSl

/-- The seven alternatives of the `date_pattern` in `parse_date`, each its
own capture group, in the source's order. -/
def dAlt1 : Re := seqRe [.rep isDigitB 1 (some 2) true, .rep isAlphaB 3 (some 3) true,
  litS "-", .rep isDigitB 2 (some 4) true]

def dAlt2 : Re := seqRe [.rep isDigitB 1 (some 2) true, litS "-",
  .rep isAlphaB 3 (some 3) true, litS "-", .rep isDigitB 2 (some 4) true]

def dAlt3 : Re := seqRe [.rep isDigitB 1 (some 2) true, .cls isWs,
  .rep isAlphaB 3 (some 9) true, .cls isWs, .rep isDigitB 2 (some 4) true]

def dAlt4 : Re := seqRe [.rep isAlphaB 3 (some 9) true, .cls isWs,
  .rep isDigitB 1 (some 2) true, litS ",", .rep isWs 0 (some 1) true,
  .rep isDigitB 4 (some 4) true]

def dAlt5 : Re := seqRe [.rep isDigitB 4 (some 4) true, litS "-",
  .rep isDigitB 2 (some 2) true, litS "-", .rep isDigitB 2 (some 2) true]

def dAlt6 : Re := seqRe [.rep isDigitB 1 (some 2) true, litS "/",
  .rep isDigitB 1 (some 2) true, litS "/", .rep isDigitB 4 (some 4) true]

def dAlt7 : Re := seqRe [.rep isDigitB 1 (some 2) true, .cls isWs,
  .rep isAlphaB 4 (some 9) true, .cls isWs, .rep isDigitB 4 (some 4) true]

def datePatternRe : Re :=
  altRe [.grp 0 dAlt1, .grp 1 dAlt2, .grp 2 dAlt3, .grp 3 dAlt4,
    .grp 4 dAlt5, .grp 5 dAlt6, .grp 6 dAlt7]

structure Date where
  year : Nat
  month : Nat
  day : Nat
deriving DecidableEq, Repr

/-- Strict chronological order, lexicographic on (year, month, day). -/
def dateLtB (a b : Date) : Bool :=
  a.year < b.year ||
  (a.year = b.year && (a.month < b.month ||
    (a.month = b.month && a.day < b.day)))

/-- `max` of two dates, keeping the first argument when equal (as Python's
`max` keeps the first occurrence of the maximum). -/
def maxD (a b : Date) : Date := if dateLtB a b then b else a

def digitCharN (n : Nat) : Char := Char.ofNat (48 + n)

def natCharsF : Nat → Nat → Str
  | 0, n => [digitCharN n]
  | fuel + 1, n =>
    if n < 10 then [digitCharN n]
    else natCharsF fuel (n / 10) ++ [digitCharN (n % 10)]

/-- Decimal digits of `n`, most significant first. -/
def natChars (n : Nat) : Str := natCharsF n n

def padNum (w n : Nat) : Str :=
  List.replicate (w - (natChars n).length) '0' ++ natChars n

/-- `dt.strftime("%Y-%m-%d")`. -/
def isoFormat (dt : Date) : Str :=
  padNum 4 dt.year ++ '-' :: padNum 2 dt.month ++ '-' :: padNum 2 dt.day

def sentinelS : Str := "1900-01-01".toList

def natOfDigits (s : Str) : Nat :=
  s.foldl (fun a c => a * 10 + (c.toNat - 48)) 0

def monthNames : List (Str × Nat) :=
  [("jan".toList, 1), ("feb".toList, 2), ("mar".toList, 3), ("apr".toList, 4),
   ("may".toList, 5), ("jun".toList, 6), ("jul".toList, 7), ("aug".toList, 8),
   ("sep".toList, 9), ("oct".toList, 10), ("nov".toList, 11), ("dec".toList, 12),
   ("january".toList, 1), ("february".toList, 2), ("march".toList, 3),
   ("april".toList, 4), ("june".toList, 6), ("july".toList, 7),
   ("august".toList, 8), ("september".toList, 9), ("october".toList, 10),
   ("november".toList, 11), ("december".toList, 12)]

def monthOf (w : Str) : Option Nat :=
  (monthNames.find? (fun p => p.1 = pyLower w)).map (fun p => p.2)

inductive DTok where
  | num (n : Nat) : DTok
  | mon (m : Nat) : DTok
deriving DecidableEq, Repr

/-- A finished letter run becomes a month token when it is a month name,
and is skipped otherwise (fuzzy mode ignores unknown words). -/
def closeWord (acc : Str) : List DTok :=
  match monthOf acc.reverse with
  | some m => [.mon m]
  | none => []

/-- Tokenizer state for the modelled `dateutil` parser: outside any run,
inside a digit run, or inside a letter run (run accumulated reversed). -/
inductive TState where
  | idle : TState
  | innum (acc : Str) : TState
  | inword (acc : Str) : TState

def tokenizeAux : TState → Str → List DTok
  | .idle, [] => []
  | .innum acc, [] => [.num (natOfDigits acc.reverse)]
  | .inword acc, [] => closeWord acc
  | .idle, c :: cs =>
    if isDigitB c then tokenizeAux (.innum [c]) cs
    else if isAlphaB c then tokenizeAux (.inword [c]) cs
    else tokenizeAux .idle cs
  | .innum acc, c :: cs =>
    if isDigitB c then tokenizeAux (.innum (c :: acc)) cs
    else
      .num (natOfDigits acc.reverse) ::
        (if isAlphaB c then tokenizeAux (.inword [c]) cs
         else tokenizeAux .idle cs)
  | .inword acc, c :: cs =>
    if isAlphaB c then tokenizeAux (.inword (c :: acc)) cs
    else
      closeWord acc ++
        (if isDigitB c then tokenizeAux (.innum [c]) cs
         else tokenizeAux .idle cs)

/-- Tokenizer for the modelled `dateutil` parser: maximal digit runs become
numbers, letter runs that are month names become months, every other
character (separators, unknown words in fuzzy mode) is skipped. -/
def tokenizeDU (s : Str) : List DTok := tokenizeAux .idle s

def isLeap (y : Nat) : Bool := y % 4 = 0 && (y % 100 ≠ 0 || y % 400 = 0)

def daysInMonth (y m : Nat) : Nat :=
  if m = 2 then (if isLeap y then 29 else 28)
  else if m = 4 || m = 6 || m = 9 || m = 11 then 30
  else 31

def mkDate (y m d : Nat) : Option Date :=
  if 1 ≤ m && m ≤ 12 && 1 ≤ d && d ≤ daysInMonth y m then some ⟨y, m, d⟩
  else none

/-- Two-digit years pivot around the current century. -/
def adjYear (y : Nat) : Nat :=
  if y < 100 then (if y < 75 then 2000 + y else 1900 + y) else y

/-- Modelled from the spec: the external `dateutil.parser.parse(s,
dayfirst=True, fuzzy=True)` collaborator, which is not part of this
repository.  Per the spec it parses a date-shaped token "with day-before-
month precedence (ambiguous `D/M` defaults to day-first) and fuzzy tolerance
for surrounding noise", rejecting invalid calendar dates.  The model covers
the token shapes the extraction regexes produce (day-month-name-year,
month-name-day-year, year-first numeric triples, and day-first numeric
triples with a month/day swap when the month slot exceeds 12); on other
shapes it fails, standing for the library raising `ValueError`. -/
def dateutilModel (s : Str) : Option Date :=
  match tokenizeDU s with
  | [.num a, .mon m, .num y] => if a ≤ 31 then mkDate (adjYear y) m a else none
  | [.mon m, .num a, .num y] => mkDate (adjYear y) m a
  | [.num a, .num b, .num c] =>
    if a > 31 then mkDate a b c
    else if b ≤ 12 then mkDate (adjYear c) b a
    else if a ≤ 12 then mkDate (adjYear c) a b
    else none
  | _ => none

/-- The candidate substrings `parse_date` collects: the non-empty stripped
group captures of every `date_pattern` match, in order. -/
def dateCandidates (s1 : Str) : List Str :=
  (findall datePatternRe 7 s1).flatMap
    (fun caps => (caps.map pyStrip).filter (fun t => t ≠ []))

/-- `utils.parse_date`, parameterized by the external `dateutil` parser
`du` (`none` standing for the library raising, which the source catches).
Returns an ISO date string, `"1900-01-01"` on every failure path. -/
def parse_date (du : Str → Option Date) (s : Str) : Str :=
  if s = [] then sentinelS
  else
    let s1 := subDashes (pyStrip s)
    let fl := dateCandidates s1
    if fl = [] then
      match du s1 with
      | some dt => isoFormat dt
      | none => sentinelS
    else
      match fl.filterMap du with
      | [] => sentinelS
      | d :: ds => isoFormat (ds.foldl maxD d)

/-! ## The seven labeled-field patterns of `extract_data_from_pdf` -/

def wsPlus : Re := .rep isWs 1 none true

def wsStar : Re := .rep isWs 0 none true

/-- `.` under `re.DOTALL`. -/
def anyC (_ : Char) : Bool := true

/-- `[A-Za-z0-9\s&\-–—/]`. -/
def dateFieldC (c : Char) : Bool :=
  isAlphaB c || isDigitB c || isWs c || c = '&' || c = '-' || c = '–' ||
    c = '—' || c = '/'

/-- `[\d:HRS\s\-–—]`. -/
def timeFieldC (c : Char) : Bool :=
  isDigitB c || c = ':' || c = 'H' || c = 'R' || c = 'S' || isWs c ||
    c = '-' || c = '–' || c = '—'

/-- `COMPLAINT NUMBER:\s*(\d{2}-\d{5})(?=\s+OFFENSE:|$)`. -/
def complaintPat : Re :=
  seqRe [litS "COMPLAINT NUMBER:", wsStar,
    .grp 0 (seqRe [.rep isDigitB 2 (some 2) true, litS "-",
      .rep isDigitB 5 (some 5) true]),
    .look (.alt (seqRe [wsPlus, litS "OFFENSE:"]) .eos)]

/-- `OFFENSE:\s+(.*?)\s+DATE\(S\):` with DOTALL. -/
def offensePat : Re :=
  seqRe [litS "OFFENSE:", wsPlus, .grp 0 (.rep anyC 0 none false), wsPlus,
    litS "DATE(S):"]

/-- `DATE\(S\)\s*:?\s+([A-Za-z0-9\s&\-–—/]+?)(?=\s+TIME\(S\)|\s+$)`. -/
def datesFieldPat : Re :=
  seqRe [litS "DATE(S)", wsStar, .rep (fun c => c = ':') 0 (some 1) true,
    wsPlus, .grp 0 (.rep dateFieldC 1 none false),
    .look (.alt (seqRe [wsPlus, litS "TIME(S)"]) (seqRe [wsPlus, .eos]))]

/-- `TIME\(S\):\s+([\d:HRS\s\-–—]+)`. -/
def timesPat : Re :=
  seqRe [litS "TIME(S):", wsPlus, .grp 0 (.rep timeFieldC 1 none true)]

/-- `LOCATION:\s+(.+?)(?=\s+(?:VICTIM/ADDRESS|NARRATIVE|NARRITIVE|NARRTIVE))`
with DOTALL. -/
def locationPat : Re :=
  seqRe [litS "LOCATION:", wsPlus, .grp 0 (.rep anyC 1 none false),
    .look (seqRe [wsPlus, altRe [litS "VICTIM/ADDRESS", litS "NARRATIVE",
      litS "NARRITIVE", litS "NARRTIVE"]])]

/-- `VICTIM/ADDRESS:\s+(.+?)(?=\s+NARRATIVE|NARRITIVE|NARRTIVE)` with
DOTALL; note the `\s+` applies only to the first alternative of the
lookahead, as in the source. -/
def victimPat : Re :=
  seqRe [litS "VICTIM/ADDRESS:", wsPlus, .grp 0 (.rep anyC 1 none false),
    .look (altRe [seqRe [wsPlus, litS "NARRATIVE"], litS "NARRITIVE",
      litS "NARRTIVE"])]

/-- `NARR(?:ATIVE|ITIVE|TIVE)\s*:\s+(.+?)(?=COMPLAINT NUMBER|$)` with
DOTALL. -/
def narrativePat : Re :=
  seqRe [litS "NARR", altRe [litS "ATIVE", litS "ITIVE", litS "TIVE"],
    wsStar, litS ":", wsPlus, .grp 0 (.rep anyC 1 none false),
    .look (.alt (litS "COMPLAINT NUMBER") .eos)]

/-! ## Location normalization (`normalize_location`, `standardize_suffix`) -/

def suffixMapping : List (Str × Str) :=
  [("st".toList, "street".toList), ("ave".toList, "avenue".toList),
   ("blvd".toList, "boulevard".toList), ("rd".toList, "road".toList),
   ("ln".toList, "lane".toList), ("dr".toList, "drive".toList),
   ("ct".toList, "court".toList), ("pl".toList, "place".toList),
   ("ter".toList, "terrace".toList), ("cir".toList, "circle".toList)]

/-- Expansion of a single token via `suffix_mapping` (identity when the
token is not a key). -/
def suffixExpand (t : Str) : Str :=
  match suffixMapping.find? (fun p => p.1 = t) with
  | some p => p.2
  | none => t

def mapLast (f : Str → Str) : List Str → List Str
  | [] => []
  | [x] => [f x]
  | x :: y :: xs => x :: mapLast f (y :: xs)

/-- `utils.standardize_suffix`: split on whitespace, expand the last token
through the suffix mapping, re-join with single spaces. -/
def standardize_suffix (address : Str) : Str :=
  joinWords (mapLast suffixExpand (splitWs address))

/-- `utils.normalize_location` on string input: lowercase, strip, delete
punctuation, collapse whitespace, standardize the final street suffix.
(Non-string input is first coerced to `""` or `str(x)` by the source, so
its output is always the image of a string under this function.) -/
def normalize_location (s : Str) : Str :=
  if s = [] then []
  else standardize_suffix (collapseWs (removePunct (pyStrip (pyLower s))))

/-- A word as produced by the normalizer: non-empty, and free of
whitespace, punctuation and upper-case letters. -/
def GoodWord (w : Str) : Prop :=
  w ≠ [] ∧ ∀ c ∈ w, isWs c = false ∧ isPunct c = false ∧ lowerC c = c

/-! ## Narrative cleaning -/

/-- `utils.clean_narrative_basic`: lowercase, collapse whitespace runs to a
single space, strip. -/
def clean_narrative_basic (narrative : Str) : Str :=
  pyStrip (collapseWs (pyLower narrative))

/-- `utils.process_narrative_nlp`, parameterized by the NLTK English
stopword list `sw` (an external data set): delete punctuation, lowercase,
split on whitespace, drop stopwords, re-join. -/
def process_narrative_nlp (sw : Str → Bool) (narrative : Str) : Str :=
  joinWords ((splitWs (pyLower (removePunct narrative))).filter
    (fun t => !sw t))

/-! ## Geocode gateway (`get_lat_long`) and the extraction loop -/

def replaceDelF (pat : Str) : Nat → Str → Str
  | 0, s => s
  | _ + 1, [] => []
  | fuel + 1, c :: cs =>
    if pat ≠ [] && pat.isPrefixOf (c :: cs) then
      replaceDelF pat fuel ((c :: cs).drop pat.length)
    else c :: replaceDelF pat fuel cs

/-- `str.replace(pat, "")`: delete every occurrence of `pat` (non-empty). -/
def replaceDel (pat : Str) (s : Str) : Str := replaceDelF pat s.length s

/-- `str.title()` on the ASCII fragment: a letter is upper-cased when not
preceded by a letter, lower-cased otherwise. -/
def pyTitleAux : Bool → Str → Str
  | _, [] => []
  | prevAlpha, c :: cs =>
    if isAlphaB c then
      (if prevAlpha then lowerC c else upperC c) :: pyTitleAux true cs
    else c :: pyTitleAux false cs

def pyTitle (s : Str) : Str := pyTitleAux false s

/-- The synthesized full address `get_lat_long` geocodes:
`location_string.lower().replace("block of", "").strip()` rendered in title
case with the fixed municipality suffix. -/
def fullAddress (loc : Str) : Str :=
  pyTitle (pyStrip (replaceDel "block of".toList (pyLower loc))) ++
    " Street, Oak Park, IL, 60302".toList

/-- `utils.get_lat_long`, parameterized by the external geocoding
collaborator `geo` (`none` standing for "no results" or any caught
exception).  Returns the coordinate pair together with the updated global
`api_call_count`: the counter is incremented only in the branch where the
geocode result is non-empty, exactly as in the source. -/
def get_lat_long (geo : Str → Option (Int × Int)) (loc : Str)
    (apiCount : Nat) : (Option Int × Option Int) × Nat :=
  match geo (fullAddress loc) with
  | some (la, lo) => ((some la, some lo), apiCount + 1)
  | none => ((none, none), apiCount)

/-- `raw.split("&")` (single-character separator, keeping empty pieces). -/
def splitAmp : Str → List Str
  | [] => [[]]
  | c :: cs =>
    if c = '&' then [] :: splitAmp cs
    else
      match splitAmp cs with
      | [] => [[c]]
      | p :: ps => (c :: p) :: ps

/-- Lexicographic (codepoint) strict order on strings, Python `<`. -/
def strLt : Str → Str → Bool
  | [], [] => false
  | [], _ :: _ => true
  | _ :: _, [] => false
  | a :: as, b :: bs =>
    if a.toNat < b.toNat then true
    else if a.toNat = b.toNat then strLt as bs
    else false

/-- Python `max` over a list of strings, `"1900-01-01"` when empty (the
source's `max(parsed_dates) if parsed_dates else "1900-01-01"`). -/
def maxStrList : List Str → Str
  | [] => sentinelS
  | x :: xs => xs.foldl (fun acc y => if strLt acc y then y else acc) x

/-- The date logic of the extraction loop (utils.py lines 495-504): split
the raw date field on `"&"`, parse each part, take the maximum of the
resulting ISO strings. -/
def dateFromRaw (du : Str → Option Date) (raw : Str) : Str :=
  maxStrList ((splitAmp raw).map (parse_date du))

def NA : Str := "N/A".toList

/-- One extracted incident record, the dict built at utils.py lines
522-551.  Coordinates are the opaque numeric payload of the external
geocoder, modelled as `Int`; `errorReasons` holds the individual reasons
(the source joins them with `"; "` only for serialization). -/
structure Entry where
  date : Str
  complaint : Str
  offense : Str
  time : Str
  location : Str
  victim : Str
  narrative : Str
  nlpText : Str
  fileName : Str
  lat : Option Int
  lng : Option Int
  locFlag : Nat
  nlpFlag : Nat
  errorFree : Nat
  errorReasons : List Str
deriving DecidableEq, Repr

/-- The mutable state the loop threads: the location cache (a dict,
newest binding first), the global `api_call_count`, and an instrumentation
log recording one element per external geocoder call — its normalized
location key and whether the call returned results. -/
structure GeoState where
  cache : List (Str × (Option Int × Option Int))
  apiCount : Nat
  callLog : List (Str × Bool)
deriving DecidableEq, Repr

def cacheFind (m : List (Str × (Option Int × Option Int))) (k : Str) :
    Option (Option Int × Option Int) :=
  (m.find? (fun p => p.1 = k)).map (fun p => p.2)

/-- The seven positionally aligned capture lists. -/
structure FieldLists where
  complaints : List Str
  offenses : List Str
  dates : List Str
  times : List Str
  locations : List Str
  victims : List Str
  narratives : List Str
deriving DecidableEq, Repr

/-- `lst[i].strip() if i < len(lst) else "N/A"`. -/
def fieldAtStrip (l : List Str) (i : Nat) : Str :=
  match l.get? i with
  | some v => pyStrip v
  | none => NA

/-- Error check over the critical fields Date, Complaint #, Offense:
a field equal to `"N/A"` or the sentinel date contributes a reason. -/
def criticalErrors (dateV comp off : Str) : List Str :=
  (if dateV = NA || dateV = sentinelS then ["Missing or invalid Date".toList]
   else []) ++
  (if comp = NA || comp = sentinelS then
    ["Missing or invalid Complaint #".toList] else []) ++
  (if off = NA || off = sentinelS then ["Missing or invalid Offense".toList]
   else [])

/-- The external-call branch of the geocode step: call `get_lat_long`,
store the result (positive or negative) in the cache under the normalized
key, and record the call in the instrumentation log. -/
def geoCall (geo : Str → Option (Int × Int)) (locStr nloc : Str)
    (st : GeoState) : (Option Int × Option Int) × GeoState :=
  let cr := get_lat_long geo locStr st.apiCount
  (cr.1,
    { cache := (nloc, cr.1) :: st.cache, apiCount := cr.2,
      callLog := st.callLog ++ [(nloc, cr.1.1.isSome)] })

/-- The cache-then-gateway policy of utils.py lines 481-493: use the cached
pair when the normalized key is present and reprocessing is not forced,
otherwise issue an external call. -/
def geoStep (geo : Str → Option (Int × Int)) (reprocess : Bool)
    (locStr : Str) (st : GeoState) : (Option Int × Option Int) × GeoState :=
  let nloc := normalize_location locStr
  match cacheFind st.cache nloc with
  | some pr => if !reprocess then (pr, st) else geoCall geo locStr nloc st
  | none => geoCall geo locStr nloc st

/-- One iteration of the extraction loop (utils.py lines 442-569) at index
`i`: `none` when the complaint number is already known (the idempotence
guard), otherwise the candidate record, together with the updated state. -/
def processOne (geo : Str → Option (Int × Int)) (du : Str → Option Date)
    (sw : Str → Bool) (reprocess : Bool) (existing : List Str)
    (fileName : Str) (fl : FieldLists) (i : Nat) (st : GeoState) :
    Option Entry × GeoState :=
  let comp := (fl.complaints.get? i).getD NA
  if comp ∈ existing then (none, st)
  else
    let offense := fieldAtStrip fl.offenses i
    let timeStr := fieldAtStrip fl.times i
    let locStr := fieldAtStrip fl.locations i
    let victim := fieldAtStrip fl.victims i
    let narrRaw := fieldAtStrip fl.narratives i
    let narrClean := if narrRaw ≠ NA then clean_narrative_basic narrRaw else NA
    let nlpPair : Str × Nat :=
      if narrRaw ≠ NA then (process_narrative_nlp sw narrRaw, 1) else (NA, 0)
    let geoRes : (Option Int × Option Int) × GeoState :=
      geoStep geo reprocess locStr st
    let rawDate := (fl.dates.get? i).getD sentinelS
    let parsedDate := dateFromRaw du rawDate
    let reasons := criticalErrors parsedDate comp offense
    let e : Entry :=
      { date := parsedDate, complaint := comp, offense := offense,
        time := timeStr, location := locStr, victim := victim,
        narrative := narrClean, nlpText := nlpPair.1, fileName := fileName,
        lat := geoRes.1.1, lng := geoRes.1.2,
        locFlag := if geoRes.1.1.isSome && geoRes.1.2.isSome then 1 else 0,
        nlpFlag := nlpPair.2,
        errorFree := if reasons = [] then 1 else 0, errorReasons := reasons }
    (some e, geoRes.2)

/-- Accumulated loop output: the report, the threaded state, and the
diagnostic log entries (modelled by the complaint number each error block
identifies). -/
structure LoopOut where
  report : List Entry
  gst : GeoState
  logs : List Str
deriving DecidableEq, Repr

def extractStep (geo : Str → Option (Int × Int)) (du : Str → Option Date)
    (sw : Str → Bool) (reprocess : Bool) (existing : List Str)
    (fileName : Str) (fl : FieldLists) (acc : LoopOut) (i : Nat) : LoopOut :=
  match processOne geo du sw reprocess existing fileName fl i acc.gst with
  | (none, st) => { acc with gst := st }
  | (some e, st) =>
    { report := acc.report ++ [e], gst := st,
      logs := acc.logs ++ (if e.errorFree = 0 then [e.complaint] else []) }

def extractRowsAux (geo : Str → Option (Int × Int)) (du : Str → Option Date)
    (sw : Str → Bool) (reprocess : Bool) (existing : List Str)
    (fileName : Str) (fl : FieldLists) : List Nat → LoopOut → LoopOut
  | [], acc => acc
  | i :: is, acc =>
    extractRowsAux geo du sw reprocess existing fileName fl is
      (extractStep geo du sw reprocess existing fileName fl acc i)

/-- The full extraction loop `for i in range(len(complaints))`. -/
def extractRows (geo : Str → Option (Int × Int)) (du : Str → Option Date)
    (sw : Str → Bool) (reprocess : Bool) (existing : List Str)
    (fileName : Str) (fl : FieldLists) (st0 : GeoState) : LoopOut :=
  extractRowsAux geo du sw reprocess existing fileName fl
    (List.range fl.complaints.length) { report := [], gst := st0, logs := [] }

/-- `re.sub(r"\n+", " ", s)`: newline runs become a single space. -/
def subNewlines : Str → Str
  | [] => []
  | [c] => if c = '\n' then [' '] else [c]
  | c :: d :: cs =>
    if c = '\n' then
      if d = '\n' then subNewlines (d :: cs) else ' ' :: subNewlines (d :: cs)
    else c :: subNewlines (d :: cs)

/-- Worker for `re.sub(r"\s{2,}", " ", s)`; `inRun` is true while consuming
the remainder of a replaced whitespace run. -/
def collapse2Aux : Bool → Str → Str
  | _, [] => []
  | true, c :: cs =>
    if isWs c then collapse2Aux true cs else c :: collapse2Aux false cs
  | false, [c] => [c]
  | false, c :: d :: cs =>
    if isWs c then
      if isWs d then ' ' :: collapse2Aux true (d :: cs)
      else c :: collapse2Aux false (d :: cs)
    else c :: collapse2Aux false (d :: cs)

/-- `re.sub(r"\s{2,}", " ", s)`: whitespace runs of length at least two
become a single space; an isolated whitespace character is kept. -/
def collapse2 (s : Str) : Str := collapse2Aux false s

/-- `utils.clean_text`: Unicode NFKD normalization (identity on the ASCII
fragment modelled here), newline runs to spaces, multi-whitespace runs to
single spaces, strip. -/
def cleanText (s : Str) : Str := pyStrip (collapse2 (subNewlines s))

/-- The seven parallel `re.findall` passes of `extract_data_from_pdf`. -/
def fieldListsOf (text : Str) : FieldLists :=
  { complaints := findall1 complaintPat text,
    offenses := findall1 offensePat text,
    dates := findall1 datesFieldPat text,
    times := findall1 timesPat text,
    locations := findall1 locationPat text,
    victims := findall1 victimPat text,
    narratives := findall1 narrativePat text }

/-- `utils.extract_data_from_pdf` on the raw text of a readable document
(PDF page I/O is the external collaborator): clean the text, run the seven
regex passes, then the extraction loop. -/
def extract_data_from_pdf (geo : Str → Option (Int × Int))
    (du : Str → Option Date) (sw : Str → Bool) (reprocess : Bool)
    (existing : List Str) (pdfUrl : Str) (rawText : Str) (st0 : GeoState) :
    LoopOut :=
  extractRows geo du sw reprocess existing pdfUrl
    (fieldListsOf (cleanText rawText)) st0

/-- The document loop of `main` (OakPark_Crime_Reporting_Web.py lines
133-209), restricted to the processed documents: each document's extraction
output is appended to the run's report, the location cache and call counter
thread through, and the known-complaints set is never updated mid-run,
exactly as in the source. -/
def runDocsAux (geo : Str → Option (Int × Int)) (du : Str → Option Date)
    (sw : Str → Bool) (reprocess : Bool) (existing : List Str) :
    List (Str × Str) → LoopOut → LoopOut
  | [], acc => acc
  | (url, text) :: ds, acc =>
    let out := extract_data_from_pdf geo du sw reprocess existing url text
      acc.gst
    runDocsAux geo du sw reprocess existing ds
      { report := acc.report ++ out.report, gst := out.gst,
        logs := acc.logs ++ out.logs }

def runDocs (geo : Str → Option (Int × Int)) (du : Str → Option Date)
    (sw : Str → Bool) (reprocess : Bool) (existing : List Str)
    (docs : List (Str × Str)) (st0 : GeoState) : LoopOut :=
  runDocsAux geo du sw reprocess existing docs
    { report := [], gst := st0, logs := [] }

/-- Number of instrumented external calls that returned results. -/
def countTrue (log : List (Str × Bool)) : Nat :=
  (log.filter (fun p => p.2)).length

/-- Number of instrumented external calls issued under normalized key
`k`. -/
def countKey (k : Str) (log : List (Str × Bool)) : Nat :=
  (log.filter (fun p => decide (p.1 = k))).length

/-- Potential used for the one-call-per-key bound: the calls already made
for `k`, plus one pending call when `k` is not yet cached. -/
def geoPotential (k : Str) (st : GeoState) : Nat :=
  countKey k st.callLog + (if (cacheFind st.cache k).isSome then 0 else 1)

/-! ## Reconciliation: skip decision, merge, dedup, sort
(OakPark_Crime_Reporting_Web.py `main`) -/

/-- A `pdf_cache` entry as written at lines 201-206.  `main` reads it back
with defaulted `get`s; a missing or empty (falsy) dict is modelled as
`none`. -/
structure CacheEntry where
  complaints : List Str
  all_error_free : Bool
  file_size : Int
  last_modified : Int
deriving DecidableEq, Repr

/-- The skip decision of lines 149-164: skip iff a (non-empty) cache entry
exists, its size and mtime fingerprint equals the current file's, its
`all_error_free` flag is set, and every complaint number it lists is among
the complaint numbers loaded from the persisted store. -/
def shouldSkip (cacheInfo : Option CacheEntry) (pdfSize pdfMtime : Int)
    (existing : List Str) : Bool :=
  match cacheInfo with
  | none => false
  | some e =>
    pdfSize = e.file_size && pdfMtime = e.last_modified &&
      e.all_error_free && e.complaints.all (fun c => decide (c ∈ existing))

def rowKey (e : Entry) : Str × Str := (e.complaint, e.fileName)

/-- `DataFrame.drop_duplicates(subset=["Complaint #", "File Name"],
keep="first")`: keep the first row of each (complaint, file) key, in
order. -/
def dedupKeepFirst : List Entry → List Entry
  | [] => []
  | r :: rs => r :: dedupKeepFirst (rs.filter (fun x => rowKey x ≠ rowKey r))
termination_by l => l.length
decreasing_by
  simp only [List.length_cons]
  exact Nat.lt_succ_of_le (List.length_filter_le _ _)

/-- Insertion step for sorting by `Date` descending. -/
def insertByDate (e : Entry) : List Entry → List Entry
  | [] => [e]
  | x :: xs =>
    if !strLt e.date x.date then e :: x :: xs else x :: insertByDate e xs

/-- `DataFrame.sort_values(by="Date", ascending=False)`: reorder the rows
so dates are non-increasing.  (pandas' quicksort and this insertion sort
produce the same multiset of rows; only the multiset matters to the claims
proved here.) -/
def sortByDateDesc : List Entry → List Entry
  | [] => []
  | x :: xs => insertByDate x (sortByDateDesc xs)

/-- The persisted-store write of lines 215-258: concatenate the existing
rows with the new batch, drop duplicate (complaint, file) keys keeping the
first-seen row, sort by date descending.  (When no store exists yet the
source runs the same pipeline with an empty existing side.) -/
def writeStore (old new : List Entry) : List Entry :=
  sortByDateDesc (dedupKeepFirst (old ++ new))

/-! ## The historical extractor
(downloaded_pdfs/OakPark_Crime_Reporting_Web_historical.py) -/

/-- The stray characters `â`, `€`, `“`, `”` that appear inside the
historical file's character classes (mojibake of the intended en/em
dashes). -/
def mojibakeC (c : Char) : Bool := c = 'â' || c = '€' || c = '“' || c = '”'

/-- `[-â€“â€”]`, the separator class of the historical `parse_date`. -/
def histDashC (c : Char) : Bool := c = '-' || mojibakeC c

/-- The slash-or-hyphen class of the historical date pattern. -/
def slashDash (c : Char) : Bool := c = '/' || c = '-'

/-- The historical date pattern: one or two digits, a slash or hyphen,
three letters, a slash or hyphen, two to four digits, as one group. -/
def histDatePat : Re :=
  .grp 0 (seqRe [.rep isDigitB 1 (some 2) true, .cls slashDash,
    .rep isAlphaB 3 (some 3) true, .cls slashDash,
    .rep isDigitB 2 (some 4) true])

/-- The historical `parse_date`, parameterized by the external `dateutil`
parser: with more than one regex match, parse each and return the latest;
otherwise attempt a direct parse of the whole (normalized) string; the
sentinel on every failure path. -/
def parse_date_hist (du : Str → Option Date) (s : Str) : Str :=
  if s = [] then sentinelS
  else
    let s1 := subSepClass histDashC (pyStrip s)
    let ms := findall1 histDatePat s1
    if 1 < ms.length then
      match ms.filterMap du with
      | [] => sentinelS
      | d :: ds => isoFormat (ds.foldl maxD d)
    else
      match du s1 with
      | some dt => isoFormat dt
      | none => sentinelS

/-- `[\dA-Za-z\s&\-â€“â€”]` of the historical manual-recovery pattern. -/
def histDateFieldC (c : Char) : Bool :=
  isDigitB c || isAlphaB c || isWs c || c = '&' || c = '-' || mojibakeC c

/-- `[\d:HRS\s\-â€“â€”]` of the historical patterns. -/
def histTimeFieldC (c : Char) : Bool :=
  isDigitB c || c = ':' || c = 'H' || c = 'R' || c = 'S' || isWs c ||
    c = '-' || mojibakeC c

/-- `[A-Z\s]`. -/
def upperWsC (c : Char) : Bool := c.isUpper || isWs c

/-- The combined manual-recovery regex of the historical extractor (lines
122-133), with DOTALL; groups 0-6 are complaint, offense, date, time,
location, victim, narrative.  Note the narrative label is the literal
`NARRATIVE:` — the pattern accepts no misspelling. -/
def histManualPat : Re :=
  seqRe [litS "COMPLAINT NUMBER:", wsStar,
    .grp 0 (seqRe [.rep isDigitB 2 (some 2) true, litS "-",
      .rep isDigitB 5 (some 5) true]),
    wsPlus, litS "OFFENSE:", wsPlus, .grp 1 (.rep upperWsC 1 none true),
    wsPlus, litS "DATE(S):", wsPlus, .grp 2 (.rep histDateFieldC 1 none true),
    wsPlus, litS "TIME(S):", wsPlus, .grp 3 (.rep histTimeFieldC 1 none true),
    wsPlus, litS "LOCATION:", wsPlus, .grp 4 (.rep anyC 1 none false),
    wsPlus, litS "VICTIM/ADDRESS:", wsPlus, .grp 5 (.rep anyC 1 none false),
    wsPlus, litS "NARRATIVE:", wsPlus, .grp 6 (.rep anyC 1 none false),
    .look (.alt (litS "COMPLAINT NUMBER") .eos)]

/-- A historical candidate record (the seven-field dict). -/
structure HistEntry where
  date : Str
  complaint : Str
  offense : Str
  time : Str
  location : Str
  victim : Str
  narrative : Str
deriving DecidableEq, Repr

/-- The replacement record built from a manual-recovery match (lines
137-146). -/
def histRecoverEntry (du : Str → Option Date) (g : Caps) : HistEntry :=
  { date := parse_date_hist du (g.getD 2 []),
    complaint := g.getD 0 [],
    offense := pyStrip (g.getD 1 []),
    time := pyStrip (g.getD 3 []),
    location := pyStrip (g.getD 4 []),
    victim := pyStrip (g.getD 5 []),
    narrative := pyStrip (g.getD 6 []) }

/-- The manual-recovery step of the historical extractor (lines 120-153):
when the candidate's narrative is `"N/A"` or its date is the sentinel,
search the combined pattern over the entire text; on a match replace the
candidate entirely with the recovered fields, otherwise keep it and append
a diagnostic log entry (modelled by the complaint number it identifies). -/
def manualRecovery (du : Str → Option Date) (text : Str) (e : HistEntry)
    (logs : List Str) : HistEntry × List Str :=
  if e.narrative = NA || e.date = sentinelS then
    match reSearch histManualPat 7 text with
    | some g => (histRecoverEntry du g, logs)
    | none => (e, logs ++ [e.complaint])
  else (e, logs)

/-! ## Claim theorems -/

/-- C1: for every unparseable or empty input the Date Parser returns the
sentinel `"1900-01-01"` and never raises.  `parse_date` is total by
construction (every `dateutil` failure is an explicit `none`), and each
failure path — empty input, no regex candidate with a failed fallback
parse, or all candidates failing to parse — yields the sentinel; moreover
the result is always either the sentinel or a well-formed formatted
date. -/
theorem c1_parse_date_failure_sentinel (du : Str → Option Date) (s : Str) :
    (s = [] → parse_date du s = sentinelS) ∧
    (dateCandidates (subDashes (pyStrip s)) = [] →
      du (subDashes (pyStrip s)) = none → parse_date du s = sentinelS) ∧
    (dateCandidates (subDashes (pyStrip s)) ≠ [] →
      (∀ c ∈ dateCandidates (subDashes (pyStrip s)), du c = none) →
      parse_date du s = sentinelS) ∧
    (parse_date du s = sentinelS ∨ ∃ dt, parse_date du s = isoFormat dt) := by
  refine ⟨?_, ?_, ?_, ?_⟩
  · intro h
    simp [parse_date, h]
  · intro h1 h2
    by_cases hs : s = []
    · simp [parse_date, hs]
    · simp [parse_date, hs, h1, h2]
  · intro h1 h2
    by_cases hs : s = []
    · simp [parse_date, hs]
    · have hfm : (dateCandidates (subDashes (pyStrip s))).filterMap du = [] := by
        rw [List.filterMap_eq_nil_iff]
        exact h2
      simp only [parse_date, hs, if_false]
      rw [if_neg h1, hfm]
  · by_cases hs : s = []
    · left
      simp [parse_date, hs]
    · simp only [parse_date, hs, if_false]
      by_cases h1 : dateCandidates (subDashes (pyStrip s)) = []
      · rw [if_pos h1]
        cases hdu : du (subDashes (pyStrip s)) with
        | none => left; rfl
        | some dt => right; exact ⟨dt, rfl⟩
      · rw [if_neg h1]
        cases hfm : (dateCandidates (subDashes (pyStrip s))).filterMap du with
        | nil => left; rfl
        | cons d ds => right; exact ⟨ds.foldl maxD d, rfl⟩

/-- C1 witness: a concrete unparseable input (with a parser that always
fails, modelling `dateutil` raising) hits both non-empty failure paths. -/
theorem c1_witness :
    parse_date (fun _ => none) "hello world".toList = sentinelS ∧
    parse_date (fun _ => none) ([] : Str) = sentinelS := by
  constructor
  · exact (c1_parse_date_failure_sentinel (fun _ => none)
      "hello world".toList).2.1 (by decide) rfl
  · exact (c1_parse_date_failure_sentinel (fun _ => none) []).1 rfl

/-- C2: latest-wins for date ranges.  Whenever the regex pass extracts
exactly two candidates and both parse, `parse_date` returns the
chronologically later one; in particular
`parse_date "01-Jan-2023 & 03-Jan-2023" = "2023-01-03"`, and the
extraction loop's own ampersand-split-and-max logic (`dateFromRaw`) agrees
on the same input.  (The concrete parts evaluate the spec-modelled
`dateutil` collaborator.) -/
theorem c2_latest_wins :
    (∀ (du : Str → Option Date) (s a b : Str) (d1 d2 : Date),
      dateCandidates (subDashes (pyStrip s)) = [a, b] →
      du a = some d1 → du b = some d2 →
      parse_date du s = isoFormat (maxD d1 d2)) ∧
    parse_date dateutilModel "01-Jan-2023 & 03-Jan-2023".toList =
      "2023-01-03".toList ∧
    dateFromRaw dateutilModel "01-Jan-2023 & 03-Jan-2023".toList =
      "2023-01-03".toList := by
  refine ⟨?_, by decide, by decide⟩
  intro du s a b d1 d2 hc ha hb
  by_cases hs : s = []
  · rw [hs] at hc
    have hnil : dateCandidates (subDashes (pyStrip ([] : Str))) = [] := by
      decide
    rw [hnil] at hc
    exact absurd hc (by simp)
  · simp only [parse_date, hs, if_false]
    rw [hc]
    have hfm : List.filterMap du [a, b] = [d1, d2] := by
      simp [List.filterMap_cons, ha, hb]
    rw [if_neg (by simp), hfm]
    rfl

/-- C2 witness: the general latest-wins theorem applied at the spec's own
example. -/
theorem c2_witness :
    parse_date dateutilModel "01-Jan-2023 & 03-Jan-2023".toList =
      isoFormat (maxD ⟨2023, 1, 1⟩ ⟨2023, 1, 3⟩) :=
  c2_latest_wins.1 dateutilModel "01-Jan-2023 & 03-Jan-2023".toList
    "01-Jan-2023".toList "03-Jan-2023".toList ⟨2023, 1, 1⟩ ⟨2023, 1, 3⟩
    (by decide) (by decide) (by decide)

/-- C4: the reconciliation engine's skip decision is exactly the
conjunction of the four cached conditions: an entry exists, the stored
size and modified-time fingerprint match the current file, the
`all_error_free` flag is set, and every cached complaint number is among
the complaint numbers loaded from the persisted store; in every other
case the document is processed. -/
theorem c4_skip_iff (ce : Option CacheEntry) (sz mt : Int) (ex : List Str) :
    shouldSkip ce sz mt ex = true ↔
      ∃ e, ce = some e ∧ sz = e.file_size ∧ mt = e.last_modified ∧
        e.all_error_free = true ∧ ∀ c ∈ e.complaints, c ∈ ex := by
  cases ce with
  | none => simp [shouldSkip]
  | some e =>
    simp only [shouldSkip, Bool.and_eq_true, decide_eq_true_eq,
      List.all_eq_true, Option.some.injEq]
    constructor
    · rintro ⟨⟨⟨h1, h2⟩, h3⟩, h4⟩
      exact ⟨e, rfl, h1, h2, h3, h4⟩
    · rintro ⟨e2, he, h1, h2, h3, h4⟩
      cases he
      exact ⟨⟨⟨h1, h2⟩, h3⟩, h4⟩

theorem mem_of_mem_dedup :
    ∀ (l : List Entry) (x : Entry), x ∈ dedupKeepFirst l → x ∈ l := by
  intro l
  induction l using dedupKeepFirst.induct with
  | case1 =>
    intro x hx
    simp [dedupKeepFirst] at hx
  | case2 r rs ih =>
    intro x hx
    rw [dedupKeepFirst] at hx
    rcases List.mem_cons.mp hx with h | h
    · exact h ▸ List.mem_cons_self _ _
    · exact List.mem_cons_of_mem _ (List.mem_of_mem_filter (ih x h))

theorem dedup_keys_nodup (l : List Entry) :
    ((dedupKeepFirst l).map rowKey).Nodup := by
  induction l using dedupKeepFirst.induct with
  | case1 => simp [dedupKeepFirst]
  | case2 r rs ih =>
    rw [dedupKeepFirst]
    simp only [List.map_cons, List.nodup_cons]
    refine ⟨?_, ih⟩
    intro hmem
    rcases List.mem_map.mp hmem with ⟨x, hx, hkey⟩
    have hxf := mem_of_mem_dedup _ x hx
    have hne := List.of_mem_filter hxf
    simp only [decide_eq_true_eq] at hne
    exact hne hkey

theorem find?_filter_of_imp (p g : Entry → Bool) (l : List Entry)
    (h : ∀ y, p y = true → g y = true) :
    (l.filter g).find? p = l.find? p := by
  induction l with
  | nil => rfl
  | cons y ys ih =>
    by_cases hg : g y = true
    · rw [List.filter_cons_of_pos hg]
      by_cases hp : p y = true
      · rw [List.find?_cons_of_pos _ hp, List.find?_cons_of_pos _ hp]
      · rw [List.find?_cons_of_neg _ hp, List.find?_cons_of_neg _ hp]
        exact ih
    · rw [List.filter_cons_of_neg (by simp_all)]
      have hp : ¬ p y = true := by
        intro hc
        exact hg (h y hc)
      rw [List.find?_cons_of_neg _ hp]
      exact ih

/-- Membership in the deduplicated list characterizes exactly the
first-seen row of each key. -/
theorem mem_dedup_iff_find (l : List Entry) (x : Entry) :
    x ∈ dedupKeepFirst l ↔
      l.find? (fun y => decide (rowKey y = rowKey x)) = some x := by
  induction l using dedupKeepFirst.induct with
  | case1 => simp [dedupKeepFirst]
  | case2 r rs ih =>
    rw [dedupKeepFirst]
    constructor
    · intro hx
      rcases List.mem_cons.mp hx with h | h
      · subst h
        rw [List.find?_cons_of_pos _ (by simp)]
      · have hxf := mem_of_mem_dedup _ x h
        have hne := List.of_mem_filter hxf
        simp only [decide_eq_true_eq] at hne
        rw [List.find?_cons_of_neg _ (by simp; exact fun hc => hne hc.symm)]
        rw [← find?_filter_of_imp (fun y => decide (rowKey y = rowKey x))
          (fun y => decide (rowKey y ≠ rowKey r)) rs]
        · exact ih.mp h
        · intro y hy
          simp only [decide_eq_true_eq] at hy ⊢
          rw [hy]
          exact hne
    · intro hf
      by_cases hr : rowKey r = rowKey x
      · rw [List.find?_cons_of_pos _ (by simp [hr])] at hf
        exact (Option.some.injEq _ _ ▸ hf) ▸ List.mem_cons_self _ _
      · rw [List.find?_cons_of_neg _ (by simpa using hr)] at hf
        rw [← find?_filter_of_imp (fun y => decide (rowKey y = rowKey x))
          (fun y => decide (rowKey y ≠ rowKey r)) rs] at hf
        · exact List.mem_cons_of_mem _ (ih.mpr hf)
        · intro y hy
          simp only [decide_eq_true_eq] at hy ⊢
          rw [hy]
          exact fun hc => hr hc.symm

theorem insertByDate_perm (e : Entry) (l : List Entry) :
    (insertByDate e l).Perm (e :: l) := by
  induction l with
  | nil => exact List.Perm.refl _
  | cons x xs ih =>
    rw [insertByDate]
    by_cases h : (!strLt e.date x.date) = true
    · rw [if_pos h]
    · rw [if_neg h]
      exact (List.Perm.cons x ih).trans (List.Perm.swap e x xs)

theorem sortByDateDesc_perm (l : List Entry) :
    (sortByDateDesc l).Perm l := by
  induction l with
  | nil => exact List.Perm.refl _
  | cons x xs ih =>
    rw [sortByDateDesc]
    exact (insertByDate_perm x (sortByDateDesc xs)).trans (ih.cons x)

/-- C5: after every store write, the persisted table has at most one row
per (complaint number, source document) key — the mapped key list is
duplicate-free — and a row is in the written store exactly when it is the
first-seen row of its key in the concatenation of the existing rows with
the new batch (so on a key collision the first row wins and later
duplicates are dropped). -/
theorem c5_store_dedup_first_seen (old new : List Entry) :
    ((writeStore old new).map rowKey).Nodup ∧
    ∀ x, x ∈ writeStore old new ↔
      (old ++ new).find? (fun y => decide (rowKey y = rowKey x)) = some x := by
  constructor
  · have hperm := (sortByDateDesc_perm (dedupKeepFirst (old ++ new))).map rowKey
    exact hperm.nodup_iff.mpr (dedup_keys_nodup (old ++ new))
  · intro x
    rw [writeStore]
    rw [(sortByDateDesc_perm (dedupKeepFirst (old ++ new))).mem_iff]
    exact mem_dedup_iff_find (old ++ new) x

theorem cacheFind_cons (a : Str) (v : Option Int × Option Int)
    (m : List (Str × (Option Int × Option Int))) (k : Str) :
    cacheFind ((a, v) :: m) k = if a = k then some v else cacheFind m k := by
  by_cases h : a = k
  · simp [cacheFind, List.find?_cons_of_pos, h]
  · rw [if_neg h]
    simp only [cacheFind]
    rw [List.find?_cons_of_neg _ (by simpa using h)]

theorem countKey_append_one (k nloc : Str) (log : List (Str × Bool))
    (b : Bool) :
    countKey k (log ++ [(nloc, b)]) =
      countKey k log + (if nloc = k then 1 else 0) := by
  by_cases h : nloc = k
  · simp [countKey, List.filter_append, h]
  · simp [countKey, List.filter_append, h]

theorem countTrue_append_one (log : List (Str × Bool)) (nloc : Str)
    (b : Bool) :
    countTrue (log ++ [(nloc, b)]) =
      countTrue log + (if b then 1 else 0) := by
  cases b <;> simp [countTrue, List.filter_append]

/-- Shape of the state after the external-call branch: one new cache
binding, the call appended to the log, and the counter advanced exactly
when the call succeeded. -/
theorem geoCall_gst (geo : Str → Option (Int × Int)) (locStr nloc : Str)
    (st : GeoState) :
    ∃ v b,
      (geoCall geo locStr nloc st).2 =
        { cache := (nloc, v) :: st.cache,
          apiCount := st.apiCount + (if b then 1 else 0),
          callLog := st.callLog ++ [(nloc, b)] } := by
  unfold geoCall get_lat_long
  cases h : geo (fullAddress locStr) with
  | none => exact ⟨(none, none), false, by simp⟩
  | some pr => exact ⟨(some pr.1, some pr.2), true, by simp⟩

/-- Shape of the state after one loop iteration: either untouched
(skipped complaint or cache hit) or extended by exactly one external
call; with reprocessing off, a call happens only for a key not yet in the
cache. -/
theorem processOne_gst (geo : Str → Option (Int × Int))
    (du : Str → Option Date) (sw : Str → Bool) (reprocess : Bool)
    (existing : List Str) (fileName : Str) (fl : FieldLists) (i : Nat)
    (st : GeoState) :
    (processOne geo du sw reprocess existing fileName fl i st).2 = st ∨
    ∃ nloc v b,
      (processOne geo du sw reprocess existing fileName fl i st).2 =
        { cache := (nloc, v) :: st.cache,
          apiCount := st.apiCount + (if b then 1 else 0),
          callLog := st.callLog ++ [(nloc, b)] } ∧
      (reprocess = false → cacheFind st.cache nloc = none) := by
  have hgeo : ∀ locStr : Str,
      (geoStep geo reprocess locStr st).2 = st ∨
      ∃ nloc v b,
        (geoStep geo reprocess locStr st).2 =
          { cache := (nloc, v) :: st.cache,
            apiCount := st.apiCount + (if b then 1 else 0),
            callLog := st.callLog ++ [(nloc, b)] } ∧
        (reprocess = false → cacheFind st.cache nloc = none) := by
    intro locStr
    unfold geoStep
    cases hcf : cacheFind st.cache (normalize_location locStr) with
    | some pr =>
      cases hrp : reprocess with
      | false =>
        left
        simp [hcf]
      | true =>
        right
        obtain ⟨v, b, hshape⟩ := geoCall_gst geo locStr
          (normalize_location locStr) st
        exact ⟨normalize_location locStr, v, b, by simp [hcf, hshape],
          fun hf => by simp at hf⟩
    | none =>
      right
      obtain ⟨v, b, hshape⟩ := geoCall_gst geo locStr
        (normalize_location locStr) st
      exact ⟨normalize_location locStr, v, b, by simp [hcf, hshape],
        fun _ => hcf⟩
  dsimp only [processOne]
  split
  · left
    rfl
  · exact hgeo (fieldAtStrip fl.locations i)

theorem extractStep_gst (geo : Str → Option (Int × Int))
    (du : Str → Option Date) (sw : Str → Bool) (reprocess : Bool)
    (existing : List Str) (fileName : Str) (fl : FieldLists)
    (acc : LoopOut) (i : Nat) :
    (extractStep geo du sw reprocess existing fileName fl acc i).gst =
      (processOne geo du sw reprocess existing fileName fl i acc.gst).2 := by
  unfold extractStep
  cases h : processOne geo du sw reprocess existing fileName fl i acc.gst with
  | mk o st =>
    cases o <;> simp

theorem extractStep_api (geo : Str → Option (Int × Int))
    (du : Str → Option Date) (sw : Str → Bool) (reprocess : Bool)
    (existing : List Str) (fileName : Str) (fl : FieldLists)
    (acc : LoopOut) (i : Nat) :
    (extractStep geo du sw reprocess existing fileName fl acc i).gst.apiCount
        + countTrue acc.gst.callLog =
      acc.gst.apiCount +
        countTrue (extractStep geo du sw reprocess existing fileName fl acc
          i).gst.callLog := by
  rw [extractStep_gst]
  rcases processOne_gst geo du sw reprocess existing fileName fl i acc.gst
    with h | ⟨nloc, v, b, h, _⟩
  · rw [h]
  · rw [h]
    simp only [countTrue_append_one]
    omega

theorem extractRowsAux_api (geo : Str → Option (Int × Int))
    (du : Str → Option Date) (sw : Str → Bool) (reprocess : Bool)
    (existing : List Str) (fileName : Str) (fl : FieldLists) :
    ∀ (idxs : List Nat) (acc : LoopOut),
    (extractRowsAux geo du sw reprocess existing fileName fl idxs
        acc).gst.apiCount + countTrue acc.gst.callLog =
      acc.gst.apiCount + countTrue (extractRowsAux geo du sw reprocess
        existing fileName fl idxs acc).gst.callLog := by
  intro idxs
  induction idxs with
  | nil => intro acc; rfl
  | cons i is ih =>
    intro acc
    rw [extractRowsAux]
    have h1 := ih (extractStep geo du sw reprocess existing fileName fl acc i)
    have h2 := extractStep_api geo du sw reprocess existing fileName fl acc i
    omega

/-- C7 (amended): the process-wide `api_call_count` counts the external
geocoding calls that returned at least one result: after any run of the
extraction loop started with a fresh call log, the counter's value is its
initial value plus the number of logged external calls whose success flag
is set.  Cache hits issue no call and leave the counter unchanged, and
no-result or failing calls are logged but not counted (the source
increments only inside the `if geocode_result:` branch). -/
theorem c7_counter_counts_successes (geo : Str → Option (Int × Int))
    (du : Str → Option Date) (sw : Str → Bool) (reprocess : Bool)
    (existing : List Str) (fileName : Str) (fl : FieldLists)
    (cache0 : List (Str × (Option Int × Option Int))) (a0 : Nat) :
    (extractRows geo du sw reprocess existing fileName fl
        ⟨cache0, a0, []⟩).gst.apiCount =
      a0 + countTrue (extractRows geo du sw reprocess existing fileName fl
        ⟨cache0, a0, []⟩).gst.callLog := by
  have h := extractRowsAux_api geo du sw reprocess existing fileName fl
    (List.range fl.complaints.length)
    { report := [], gst := ⟨cache0, a0, []⟩, logs := [] }
  simpa [extractRows, countTrue] using h

/-- C7 counterexample: with a geocoder that returns no results, a
one-record run issues exactly one external call (the log has one entry)
while the counter stays at zero — refuting the claim that the counter is
incremented on every external call including those that return no
results. -/
theorem c7_counterexample :
    (extractRows (fun _ => none) dateutilModel (fun _ => false) false []
        "f".toList
        ⟨["25-00001".toList], [], ["1-Jan-2023".toList], [],
          ["123 Main St".toList], [], []⟩
        ⟨[], 0, []⟩).gst.callLog.length = 1 ∧
    (extractRows (fun _ => none) dateutilModel (fun _ => false) false []
        "f".toList
        ⟨["25-00001".toList], [], ["1-Jan-2023".toList], [],
          ["123 Main St".toList], [], []⟩
        ⟨[], 0, []⟩).gst.apiCount = 0 := by
  exact ⟨by decide, by decide⟩

theorem extractStep_potential (geo : Str → Option (Int × Int))
    (du : Str → Option Date) (sw : Str → Bool) (existing : List Str)
    (fileName : Str) (fl : FieldLists) (acc : LoopOut) (i : Nat) (k : Str) :
    geoPotential k
        (extractStep geo du sw false existing fileName fl acc i).gst ≤
      geoPotential k acc.gst := by
  rw [extractStep_gst]
  rcases processOne_gst geo du sw false existing fileName fl i acc.gst
    with h | ⟨nloc, v, b, h, hnone⟩
  · rw [h]
  · rw [h]
    have hc := hnone rfl
    simp only [geoPotential, countKey_append_one, cacheFind_cons]
    by_cases hk : nloc = k
    · subst hk
      rw [hc]
      simp
    · simp [hk]

theorem extractRowsAux_potential (geo : Str → Option (Int × Int))
    (du : Str → Option Date) (sw : Str → Bool) (existing : List Str)
    (fileName : Str) (fl : FieldLists) (k : Str) :
    ∀ (idxs : List Nat) (acc : LoopOut),
    geoPotential k
        (extractRowsAux geo du sw false existing fileName fl idxs acc).gst ≤
      geoPotential k acc.gst := by
  intro idxs
  induction idxs with
  | nil => intro acc; exact Nat.le_refl _
  | cons i is ih =>
    intro acc
    rw [extractRowsAux]
    exact (ih _).trans (extractStep_potential geo du sw existing fileName fl
      acc i k)

/-- C6: with the reprocess-locations flag off, the geocode path issues at
most one external call per normalized location key over a whole run — and
none at all for keys already in the location cache at run start.  In
particular (second and third conjuncts) the two raw addresses
`"123 Main St"` and `"123 MAIN STREET"` normalize to the same key, and a
run over two records carrying exactly those two raw addresses, starting
from an empty cache, issues exactly one external geocoding call. -/
theorem c6_one_call_per_key (geo : Str → Option (Int × Int))
    (du : Str → Option Date) (sw : Str → Bool) (existing : List Str)
    (fileName : Str) (fl : FieldLists)
    (cache0 : List (Str × (Option Int × Option Int))) (a0 : Nat) (k : Str) :
    countKey k (extractRows geo du sw false existing fileName fl
        ⟨cache0, a0, []⟩).gst.callLog ≤
      (if (cacheFind cache0 k).isSome then 0 else 1) ∧
    normalize_location "123 Main St".toList =
      normalize_location "123 MAIN STREET".toList ∧
    (extractRows (fun _ => none) dateutilModel (fun _ => false) false []
        "f".toList
        ⟨["25-00001".toList, "25-00002".toList], [], [], [],
          ["123 Main St".toList, "123 MAIN STREET".toList], [], []⟩
        ⟨[], 0, []⟩).gst.callLog.length = 1 := by
  refine ⟨?_, by decide, by decide⟩
  have hp := extractRowsAux_potential geo du sw existing fileName fl k
    (List.range fl.complaints.length)
    { report := [], gst := ⟨cache0, a0, []⟩, logs := [] }
  simp only [geoPotential] at hp
  have h0 : countKey k ([] : List (Str × Bool)) = 0 := rfl
  rw [extractRows]
  by_cases hsf : (cacheFind (extractRowsAux geo du sw false existing fileName
      fl (List.range fl.complaints.length)
      { report := [], gst := ⟨cache0, a0, []⟩, logs := [] }).gst.cache
      k).isSome = true
  · rw [hsf] at hp
    simp only [h0] at hp
    omega
  · rw [Bool.not_eq_true] at hsf
    rw [hsf] at hp
    simp only [h0] at hp
    omega

theorem processOne_some_complaint (geo : Str → Option (Int × Int))
    (du : Str → Option Date) (sw : Str → Bool) (reprocess : Bool)
    (existing : List Str) (fileName : Str) (fl : FieldLists) (i : Nat)
    (st : GeoState) (e : Entry) (st2 : GeoState) :
    processOne geo du sw reprocess existing fileName fl i st = (some e, st2) →
      e.complaint ∉ existing := by
  dsimp only [processOne]
  split
  · intro h
    simp at h
  · next hmem =>
    intro h
    have h2 := Option.some.inj (congrArg Prod.fst h)
    rw [← h2]
    exact hmem

theorem extractRowsAux_complaints (geo : Str → Option (Int × Int))
    (du : Str → Option Date) (sw : Str → Bool) (reprocess : Bool)
    (existing : List Str) (fileName : Str) (fl : FieldLists) :
    ∀ (idxs : List Nat) (acc : LoopOut) (e : Entry),
    e ∈ (extractRowsAux geo du sw reprocess existing fileName fl idxs
        acc).report →
      e ∈ acc.report ∨ e.complaint ∉ existing := by
  intro idxs
  induction idxs with
  | nil =>
    intro acc e he
    exact Or.inl he
  | cons i is ih =>
    intro acc e he
    rw [extractRowsAux] at he
    rcases ih _ e he with hin | hout
    · unfold extractStep at hin
      rcases hpo : processOne geo du sw reprocess existing fileName fl i
        acc.gst with ⟨o, st2⟩
      rw [hpo] at hin
      cases o with
      | none => exact Or.inl hin
      | some e2 =>
        simp only [List.mem_append, List.mem_singleton] at hin
        rcases hin with hin | heq
        · exact Or.inl hin
        · exact Or.inr (heq ▸
            processOne_some_complaint geo du sw reprocess existing fileName
              fl i acc.gst e2 st2 hpo)
    · exact Or.inr hout

theorem runDocsAux_complaints (geo : Str → Option (Int × Int))
    (du : Str → Option Date) (sw : Str → Bool) (reprocess : Bool)
    (existing : List Str) :
    ∀ (docs : List (Str × Str)) (acc : LoopOut) (e : Entry),
    e ∈ (runDocsAux geo du sw reprocess existing docs acc).report →
      e ∈ acc.report ∨ e.complaint ∉ existing := by
  intro docs
  induction docs with
  | nil =>
    intro acc e he
    exact Or.inl he
  | cons d ds ih =>
    intro acc e he
    rcases d with ⟨url, text⟩
    rw [runDocsAux] at he
    rcases ih _ e he with hin | hout
    · simp only [List.mem_append] at hin
      rcases hin with hin | hnew
      · exact Or.inl hin
      · rcases extractRowsAux_complaints geo du sw reprocess existing url
          (fieldListsOf (cleanText text)) _ _ e hnew with habs | hok
        · simp at habs
        · exact Or.inr hok
    · exact Or.inr hout

/-- C10: the extractor's idempotence guard keys on the complaint number
alone.  First conjunct: over any run, every emitted record's complaint
number is outside the known-complaints set loaded at run start, regardless
of which source document it appears in — a reprint of an already-persisted
complaint number in a different document is never added.  Second and third
conjuncts: the known set is not updated mid-run, so two documents in the
same run both carrying the fresh complaint number `25-00001` each
contribute a row, while the same two documents contribute nothing when
that number is already known. -/
theorem c10_guard_on_complaint_only :
    (∀ (geo : Str → Option (Int × Int)) (du : Str → Option Date)
      (sw : Str → Bool) (reprocess : Bool) (existing : List Str)
      (docs : List (Str × Str)) (st0 : GeoState),
      (runDocs geo du sw reprocess existing docs st0).report.all
        (fun e => decide (e.complaint ∉ existing)) = true) ∧
    ((runDocs (fun _ => none) dateutilModel (fun _ => false) false []
        [("d1".toList,
          "COMPLAINT NUMBER: 25-00001 OFFENSE: THEFT DATE(S): 1-Jan-2023 TIME(S): 1200 HRS LOCATION: MAIN ST VICTIM/ADDRESS: RES NARRATIVE: X".toList),
         ("d2".toList,
          "COMPLAINT NUMBER: 25-00001 OFFENSE: ARSON DATE(S): 2-Jan-2023 TIME(S): 1300 HRS LOCATION: OAK AVE VICTIM/ADDRESS: SHOP NARRATIVE: Y".toList)]
        ⟨[], 0, []⟩).report.map (fun e => e.complaint)) =
      ["25-00001".toList, "25-00001".toList] ∧
    (runDocs (fun _ => none) dateutilModel (fun _ => false) false
        ["25-00001".toList]
        [("d1".toList,
          "COMPLAINT NUMBER: 25-00001 OFFENSE: THEFT DATE(S): 1-Jan-2023 TIME(S): 1200 HRS LOCATION: MAIN ST VICTIM/ADDRESS: RES NARRATIVE: X".toList),
         ("d2".toList,
          "COMPLAINT NUMBER: 25-00001 OFFENSE: ARSON DATE(S): 2-Jan-2023 TIME(S): 1300 HRS LOCATION: OAK AVE VICTIM/ADDRESS: SHOP NARRATIVE: Y".toList)]
        ⟨[], 0, []⟩).report = [] := by
  refine ⟨?_, by decide, by decide⟩
  intro geo du sw reprocess existing docs st0
  rw [List.all_eq_true]
  intro e he
  rcases runDocsAux_complaints geo du sw reprocess existing docs
    { report := [], gst := st0, logs := [] } e he with habs | hok
  · simp at habs
  · simpa using hok

/-- C3 counterexample: a document whose narrative label carries the
misspelling `NARRTIVE:` — which the current extractor's per-field pattern
does match (second conjunct) — is not matched by the manual-recovery
combined regex, so a triggered candidate is not replaced (third conjunct):
the recovery pass is not tolerant of the misspellings, contrary to the
claim. -/
theorem c3_counterexample :
    reSearch histManualPat 7
      "COMPLAINT NUMBER: 25-00002 OFFENSE: BURGLARY DATE(S): 01-Jan-2023 TIME(S): 0100 HRS LOCATION: 123 Main St VICTIM/ADDRESS: HOME NARRTIVE: FORCED ENTRY".toList
      = none ∧
    findall1 narrativePat
      "COMPLAINT NUMBER: 25-00002 OFFENSE: BURGLARY DATE(S): 01-Jan-2023 TIME(S): 0100 HRS LOCATION: 123 Main St VICTIM/ADDRESS: HOME NARRTIVE: FORCED ENTRY".toList
      = ["FORCED ENTRY".toList] ∧
    (manualRecovery dateutilModel
      "COMPLAINT NUMBER: 25-00002 OFFENSE: BURGLARY DATE(S): 01-Jan-2023 TIME(S): 0100 HRS LOCATION: 123 Main St VICTIM/ADDRESS: HOME NARRTIVE: FORCED ENTRY".toList
      { date := sentinelS, complaint := "25-00002".toList, offense := NA,
        time := NA, location := NA, victim := NA, narrative := NA } []).1 =
      { date := sentinelS, complaint := "25-00002".toList, offense := NA,
        time := NA, location := NA, victim := NA, narrative := NA } := by
  refine ⟨by decide, by decide, by decide⟩

/-- C3 (amended): manual recovery exists in the historical extractor, and
its combined regex requires the exact spelling `NARRATIVE:` (the
misspellings `NARRITIVE`/`NARRTIVE` are tolerated only by the current
extractor's per-field narrative pattern; the current extractor performs no
manual recovery and only logs).  For every candidate: recovery is
attempted iff the narrative is `"N/A"` or the date is the sentinel; when
the combined regex matches anywhere in the whole document text the
candidate is replaced entirely by the recovered fields; when it does not
match, the original best-effort record is kept and a diagnostic log entry
is appended.  The final conjunct exercises a successful recovery on a
correctly spelled document. -/
theorem c3_manual_recovery_amended (du : Str → Option Date) (text : Str)
    (e : HistEntry) (logs : List Str) :
    (e.narrative ≠ NA ∧ e.date ≠ sentinelS →
      manualRecovery du text e logs = (e, logs)) ∧
    ((e.narrative = NA ∨ e.date = sentinelS) →
      (∀ g, reSearch histManualPat 7 text = some g →
        manualRecovery du text e logs = (histRecoverEntry du g, logs)) ∧
      (reSearch histManualPat 7 text = none →
        manualRecovery du text e logs = (e, logs ++ [e.complaint]))) ∧
    (manualRecovery dateutilModel
      "COMPLAINT NUMBER: 25-00002 OFFENSE: BURGLARY DATE(S): 01-Jan-2023 TIME(S): 0100 HRS LOCATION: 123 Main St VICTIM/ADDRESS: HOME NARRATIVE: FORCED ENTRY".toList
      { date := sentinelS, complaint := "25-00002".toList, offense := NA,
        time := NA, location := NA, victim := NA, narrative := NA } []).1 =
      { date := "2023-01-01".toList, complaint := "25-00002".toList,
        offense := "BURGLARY".toList, time := "0100 HRS".toList,
        location := "123 Main St".toList, victim := "HOME".toList,
        narrative := "FORCED ENTRY".toList } := by
  refine ⟨?_, ?_, by decide⟩
  · rintro ⟨h1, h2⟩
    rw [manualRecovery, if_neg (by simp [h1, h2])]
  · intro htrig
    constructor
    · intro g hg
      rw [manualRecovery, if_pos (by rcases htrig with h | h <;> simp [h]),
        hg]
    · intro hg
      rw [manualRecovery, if_pos (by rcases htrig with h | h <;> simp [h]),
        hg]

/-- C3 witness: the amended theorem applied at a concrete misspelled
document — the trigger fires, the combined regex finds no match, the
record is kept and a diagnostic entry is appended. -/
theorem c3_witness :
    manualRecovery dateutilModel
      "COMPLAINT NUMBER: 25-00002 OFFENSE: BURGLARY DATE(S): 01-Jan-2023 TIME(S): 0100 HRS LOCATION: 123 Main St VICTIM/ADDRESS: HOME NARRTIVE: FORCED ENTRY".toList
      (HistEntry.mk sentinelS "25-00002".toList NA NA NA NA NA) [] =
      (HistEntry.mk sentinelS "25-00002".toList NA NA NA NA NA,
        [] ++ ["25-00002".toList]) :=
  ((c3_manual_recovery_amended dateutilModel
      "COMPLAINT NUMBER: 25-00002 OFFENSE: BURGLARY DATE(S): 01-Jan-2023 TIME(S): 0100 HRS LOCATION: 123 Main St VICTIM/ADDRESS: HOME NARRTIVE: FORCED ENTRY".toList
      { date := sentinelS, complaint := "25-00002".toList, offense := NA,
        time := NA, location := NA, victim := NA, narrative := NA }
      []).2.1 (Or.inl rfl)).2 (by decide)

/-- C9 (code bug): the parser's docstring lists `MM/DD/YYYY` among the
handled formats, but slashes are rewritten to hyphens before the regex
pass (so the `\d{1,2}/\d{1,2}/\d{4}` alternative can never match) and the
input falls to the `dayfirst=True` fallback, which misreads month-first
dates.  At the failing input `"12/01/2023"` (December 1, 2023 in
`MM/DD/YYYY`) the code returns `"2023-01-12"`, while the three other
renderings of the same date agree on `"2023-12-01"` — so format-invariance
fails exactly on the month/day-ambiguous slash rendering. -/
theorem c9_mdy_divergence :
    parse_date dateutilModel "12/01/2023".toList = "2023-01-12".toList ∧
    parse_date dateutilModel "1-Dec-2023".toList = "2023-12-01".toList ∧
    parse_date dateutilModel "2023-12-01".toList = "2023-12-01".toList ∧
    parse_date dateutilModel "December 1, 2023".toList = "2023-12-01".toList ∧
    "2023-01-12".toList ≠ "2023-12-01".toList := by
  refine ⟨by decide, by decide, by decide, by decide, by decide⟩

theorem charOfNat_toNat (n : Nat) (h : n < 55296) :
    (Char.ofNat n).toNat = n := by
  unfold Char.ofNat
  split
  · rfl
  · rename_i hv
    exact absurd (Or.inl h) hv

theorem lowerC_idem (c : Char) : lowerC (lowerC c) = lowerC c := by
  unfold lowerC
  by_cases h : (65 ≤ c.toNat && c.toNat ≤ 90) = true
  · rw [if_pos h]
    have hb : 65 ≤ c.toNat ∧ c.toNat ≤ 90 := by simpa using h
    have ht : (Char.ofNat (c.toNat + 32)).toNat = c.toNat + 32 :=
      charOfNat_toNat _ (by omega)
    rw [if_neg (by
      simp only [ht, Bool.and_eq_true, decide_eq_true_eq, not_and]
      omega)]
  · rw [if_neg h, if_neg h]

theorem mem_pyLower_lower (c : Char) (s : Str) (h : c ∈ pyLower s) :
    lowerC c = c := by
  rcases List.mem_map.mp h with ⟨c0, _, hc⟩
  rw [← hc]
  exact lowerC_idem c0

theorem mem_of_mem_dropWhile (p : Char → Bool) (l : Str) (c : Char)
    (h : c ∈ l.dropWhile p) : c ∈ l := by
  induction l with
  | nil => simpa using h
  | cons d ds ih =>
    by_cases hp : p d = true
    · rw [List.dropWhile_cons, if_pos hp] at h
      exact List.mem_cons_of_mem _ (ih h)
    · rw [List.dropWhile_cons, if_neg hp] at h
      exact h

theorem mem_pyStrip (c : Char) (s : Str) (h : c ∈ pyStrip s) : c ∈ s := by
  unfold pyStrip at h
  rw [List.mem_reverse] at h
  have h2 := mem_of_mem_dropWhile _ _ _ h
  rw [List.mem_reverse] at h2
  exact mem_of_mem_dropWhile _ _ _ h2

theorem mem_collapseWs (c : Char) :
    ∀ y : Str, c ∈ collapseWs y → c = ' ' ∨ c ∈ y := by
  intro y
  induction y using collapseWs.induct with
  | case1 => intro h; simp [collapseWs] at h
  | case2 d hd =>
    intro h
    rw [collapseWs, if_pos hd] at h
    exact Or.inl (List.mem_singleton.mp h)
  | case3 d hd =>
    intro h
    rw [collapseWs, if_neg hd] at h
    exact Or.inr h
  | case4 d e es hd he ih =>
    intro h
    rw [collapseWs, if_pos hd, if_pos he] at h
    rcases ih h with h1 | h1
    · exact Or.inl h1
    · exact Or.inr (List.mem_cons_of_mem _ h1)
  | case5 d e es hd he ih =>
    intro h
    rw [collapseWs, if_pos hd, if_neg he] at h
    rcases List.mem_cons.mp h with h1 | h1
    · exact Or.inl h1
    · rcases ih h1 with h2 | h2
      · exact Or.inl h2
      · exact Or.inr (List.mem_cons_of_mem _ h2)
  | case6 d e es hd ih =>
    intro h
    rw [collapseWs, if_neg hd] at h
    rcases List.mem_cons.mp h with h1 | h1
    · exact Or.inr (h1 ▸ List.mem_cons_self _ _)
    · rcases ih h1 with h2 | h2
      · exact Or.inl h2
      · exact Or.inr (List.mem_cons_of_mem _ h2)

/-- Words produced by the split worker are non-empty, whitespace-free, and
made of characters of the accumulator or the input. -/
theorem splitWsAux_words :
    ∀ (t acc : Str), (∀ c ∈ acc, isWs c = false) →
    ∀ w ∈ splitWsAux acc t,
      w ≠ [] ∧ ∀ c ∈ w, isWs c = false ∧ (c ∈ acc ∨ c ∈ t) := by
  intro t
  induction t with
  | nil =>
    intro acc hacc w hw
    rw [splitWsAux] at hw
    by_cases ha : acc = []
    · rw [if_pos ha] at hw
      simp at hw
    · rw [if_neg ha] at hw
      rw [List.mem_singleton] at hw
      subst hw
      refine ⟨by simpa using ha, ?_⟩
      intro c hc
      rw [List.mem_reverse] at hc
      exact ⟨hacc c hc, Or.inl hc⟩
  | cons d ds ih =>
    intro acc hacc w hw
    rw [splitWsAux] at hw
    by_cases hd : isWs d = true
    · rw [if_pos hd] at hw
      by_cases ha : acc = []
      · rw [if_pos ha] at hw
        rcases ih [] (by simp) w hw with ⟨h1, h2⟩
        refine ⟨h1, fun c hc => ?_⟩
        rcases h2 c hc with ⟨h3, h4 | h4⟩
        · simp at h4
        · exact ⟨h3, Or.inr (List.mem_cons_of_mem _ h4)⟩
      · rw [if_neg ha] at hw
        rcases List.mem_cons.mp hw with hw1 | hw1
        · subst hw1
          refine ⟨by simpa using ha, fun c hc => ?_⟩
          rw [List.mem_reverse] at hc
          exact ⟨hacc c hc, Or.inl hc⟩
        · rcases ih [] (by simp) w hw1 with ⟨h1, h2⟩
          refine ⟨h1, fun c hc => ?_⟩
          rcases h2 c hc with ⟨h3, h4 | h4⟩
          · simp at h4
          · exact ⟨h3, Or.inr (List.mem_cons_of_mem _ h4)⟩
    · rw [if_neg hd] at hw
      have hacc2 : ∀ c ∈ d :: acc, isWs c = false := by
        intro c hc
        rcases List.mem_cons.mp hc with h | h
        · rw [h]
          simpa using hd
        · exact hacc c h
      rcases ih (d :: acc) hacc2 w hw with ⟨h1, h2⟩
      refine ⟨h1, fun c hc => ?_⟩
      rcases h2 c hc with ⟨h3, h4 | h4⟩
      · rcases List.mem_cons.mp h4 with h5 | h5
        · exact ⟨h3, Or.inr (h5 ▸ List.mem_cons_self _ _)⟩
        · exact ⟨h3, Or.inl h5⟩
      · exact ⟨h3, Or.inr (List.mem_cons_of_mem _ h4)⟩

theorem suffixExpand_eq (w : Str) :
    suffixExpand w = w ∨ ∃ p ∈ suffixMapping, suffixExpand w = p.2 := by
  unfold suffixExpand
  cases h : suffixMapping.find? (fun p => p.1 = w) with
  | none => exact Or.inl rfl
  | some p => exact Or.inr ⟨p, List.mem_of_find?_eq_some h, rfl⟩

theorem suffixMapping_values_good :
    ∀ p ∈ suffixMapping, GoodWord p.2 ∧ suffixExpand p.2 = p.2 := by
  unfold GoodWord
  decide

theorem suffixExpand_good (w : Str) (h : GoodWord w) :
    GoodWord (suffixExpand w) := by
  rcases suffixExpand_eq w with h1 | ⟨p, hp, h1⟩ <;> rw [h1]
  · exact h
  · exact (suffixMapping_values_good p hp).1

theorem suffixExpand_idem (w : Str) :
    suffixExpand (suffixExpand w) = suffixExpand w := by
  rcases suffixExpand_eq w with h1 | ⟨p, hp, h1⟩
  · rw [h1]
    exact h1
  · rw [h1]
    exact (suffixMapping_values_good p hp).2

theorem mapLast_good (l : List Str) (h : ∀ w ∈ l, GoodWord w) :
    ∀ w ∈ mapLast suffixExpand l, GoodWord w := by
  induction l with
  | nil => intro w hw; simp [mapLast] at hw
  | cons x xs ih =>
    intro w hw
    cases xs with
    | nil =>
      simp only [mapLast, List.mem_singleton] at hw
      subst hw
      exact suffixExpand_good x (h x (List.mem_cons_self _ _))
    | cons y ys =>
      simp only [mapLast] at hw
      rcases List.mem_cons.mp hw with h1 | h1
      · exact h1 ▸ h x (List.mem_cons_self _ _)
      · exact ih (fun v hv => h v (List.mem_cons_of_mem _ hv)) w h1

theorem mapLast_expand_idem (l : List Str) :
    mapLast suffixExpand (mapLast suffixExpand l) = mapLast suffixExpand l := by
  induction l with
  | nil => rfl
  | cons x xs ih =>
    cases xs with
    | nil =>
      simp only [mapLast, suffixExpand_idem]
    | cons y ys =>
      obtain ⟨z, zs, hm⟩ : ∃ z zs,
          mapLast suffixExpand (y :: ys) = z :: zs := by
        cases ys with
        | nil => exact ⟨suffixExpand y, [], rfl⟩
        | cons u us => exact ⟨y, mapLast suffixExpand (u :: us), rfl⟩
      simp only [mapLast]
      rw [hm]
      simp only [mapLast]
      rw [← hm, ih, hm]

theorem joinWords_ne_nil (w : Str) (l : List Str) (hw : w ≠ []) :
    joinWords (w :: l) ≠ [] := by
  cases l with
  | nil => simpa [joinWords] using hw
  | cons v vs =>
    rw [joinWords]
    cases w with
    | nil => exact absurd rfl hw
    | cons c cs => simp

theorem joinWords_head (w : Str) (l : List Str) :
    ∃ r, joinWords (w :: l) = w ++ r := by
  cases l with
  | nil => exact ⟨[], by simp [joinWords]⟩
  | cons v vs => exact ⟨' ' :: joinWords (v :: vs), rfl⟩

theorem mem_joinWords (c : Char) :
    ∀ l : List Str, c ∈ joinWords l → c = ' ' ∨ ∃ w ∈ l, c ∈ w := by
  intro l
  induction l with
  | nil => intro h; simp [joinWords] at h
  | cons w ws ih =>
    intro h
    cases ws with
    | nil =>
      rw [joinWords] at h
      exact Or.inr ⟨w, List.mem_cons_self _ _, h⟩
    | cons v vs =>
      rw [joinWords] at h
      rcases List.mem_append.mp h with h1 | h1
      · exact Or.inr ⟨w, List.mem_cons_self _ _, h1⟩
      · rcases List.mem_cons.mp h1 with h2 | h2
        · exact Or.inl h2
        · rcases ih h2 with h3 | ⟨u, hu, hc⟩
          · exact Or.inl h3
          · exact Or.inr ⟨u, List.mem_cons_of_mem _ hu, hc⟩

theorem joinWords_reverse_head (l : List Str) (hl : l ≠ [])
    (h : ∀ w ∈ l, w ≠ [] ∧ ∀ c ∈ w, isWs c = false) :
    ∃ c r, (joinWords l).reverse = c :: r ∧ isWs c = false := by
  induction l with
  | nil => exact absurd rfl hl
  | cons w ws ih =>
    cases ws with
    | nil =>
      rcases h w (List.mem_cons_self _ _) with ⟨hne, hws⟩
      cases hrev : w.reverse with
      | nil => exact absurd (by simpa using hrev) hne
      | cons c r =>
        refine ⟨c, r, by simpa [joinWords] using hrev, ?_⟩
        have hc : c ∈ w := by
          rw [← List.mem_reverse, hrev]
          exact List.mem_cons_self _ _
        exact hws c hc
    | cons v vs =>
      rcases ih (by simp) (fun u hu => h u (List.mem_cons_of_mem _ hu))
        with ⟨c, r, hrev, hcws⟩
      refine ⟨c, r ++ ' ' :: w.reverse, ?_, hcws⟩
      rw [joinWords, List.reverse_append, List.reverse_cons, hrev]
      simp

theorem dropWhile_eq_self_head (t : Str)
    (h : t = [] ∨ ∃ c r, t = c :: r ∧ isWs c = false) :
    t.dropWhile isWs = t := by
  rcases h with h | ⟨c, r, h1, h2⟩
  · rw [h]
    rfl
  · rw [h1, List.dropWhile_cons, h2]
    simp

theorem collapseWs_word_append (w r : Str)
    (hw : ∀ c ∈ w, isWs c = false) :
    collapseWs (w ++ r) = w ++ collapseWs r := by
  induction w with
  | nil => rfl
  | cons a w2 ih =>
    have ha : isWs a = false := hw a (List.mem_cons_self _ _)
    cases w2 with
    | nil =>
      cases r with
      | nil => simp [collapseWs, ha]
      | cons b bs => simp [collapseWs, ha]
    | cons b w3 =>
      have hbw : collapseWs ((b :: w3) ++ r) = (b :: w3) ++ collapseWs r :=
        ih (fun c hc => hw c (List.mem_cons_of_mem _ hc))
      calc collapseWs ((a :: b :: w3) ++ r)
          = a :: collapseWs ((b :: w3) ++ r) := by
            simp [collapseWs, ha]
        _ = (a :: b :: w3) ++ collapseWs r := by rw [hbw]; rfl

theorem collapseWs_joinWords (l : List Str)
    (h : ∀ w ∈ l, w ≠ [] ∧ ∀ c ∈ w, isWs c = false) :
    collapseWs (joinWords l) = joinWords l := by
  induction l with
  | nil => rfl
  | cons w ws ih =>
    rcases h w (List.mem_cons_self _ _) with ⟨hne, hws⟩
    cases ws with
    | nil =>
      show collapseWs (joinWords [w]) = joinWords [w]
      simp only [joinWords]
      have := collapseWs_word_append w [] hws
      simpa [collapseWs] using this
    | cons v vs =>
      rw [joinWords, collapseWs_word_append w _ hws]
      rcases h v (List.mem_cons_of_mem _ (List.mem_cons_self _ _))
        with ⟨hvne, hvws⟩
      rcases joinWords_head v vs with ⟨r0, hr0⟩
      cases v with
      | nil => exact absurd rfl hvne
      | cons c v2 =>
        have hcws : isWs c = false := hvws c (List.mem_cons_self _ _)
        have hJ : joinWords ((c :: v2) :: vs) = c :: (v2 ++ r0) := by
          rw [hr0]
          rfl
        rw [hJ]
        have hcoll : collapseWs (' ' :: c :: (v2 ++ r0)) =
            ' ' :: collapseWs (c :: (v2 ++ r0)) := by
          simp [collapseWs, hcws]
        rw [hcoll, ← hJ, ih (fun u hu => h u (List.mem_cons_of_mem _ hu))]

theorem splitWsAux_word_prefix (w : Str) :
    ∀ (acc t : Str), (∀ c ∈ w, isWs c = false) →
    splitWsAux acc (w ++ t) = splitWsAux (w.reverse ++ acc) t := by
  induction w with
  | nil => intro acc t _; rfl
  | cons c w2 ih =>
    intro acc t hw
    have hc : isWs c = false := hw c (List.mem_cons_self _ _)
    show splitWsAux acc (c :: (w2 ++ t)) = _
    rw [splitWsAux, if_neg (by simp [hc])]
    rw [ih (c :: acc) t (fun d hd => hw d (List.mem_cons_of_mem _ hd))]
    simp

theorem splitWs_joinWords (l : List Str)
    (h : ∀ w ∈ l, w ≠ [] ∧ ∀ c ∈ w, isWs c = false) :
    splitWs (joinWords l) = l := by
  induction l with
  | nil => rfl
  | cons w ws ih =>
    rcases h w (List.mem_cons_self _ _) with ⟨hne, hws⟩
    cases ws with
    | nil =>
      show splitWsAux [] (joinWords [w]) = [w]
      rw [joinWords]
      have := splitWsAux_word_prefix w [] [] hws
      rw [List.append_nil] at this
      rw [this, splitWsAux, if_neg (by simpa using hne)]
      simp
    | cons v vs =>
      show splitWsAux [] (joinWords (w :: v :: vs)) = w :: v :: vs
      rw [joinWords, splitWsAux_word_prefix w [] (' ' :: joinWords (v :: vs))
        hws, List.append_nil]
      rw [splitWsAux, if_pos (by decide),
        if_neg (by simpa using hne)]
      rw [List.reverse_reverse]
      exact congrArg (w :: ·) (ih (fun u hu => h u (List.mem_cons_of_mem _ hu)))

/-- The fixed-point core of the idempotence proof: the normalizer leaves a
join of good words unchanged provided the last word is already
suffix-expanded. -/
theorem normalize_fix_of_good (l : List Str) (h : ∀ w ∈ l, GoodWord w)
    (hidem : mapLast suffixExpand l = l) :
    normalize_location (joinWords l) = joinWords l := by
  cases l with
  | nil => rfl
  | cons w0 l2 =>
    have hlws : ∀ w ∈ w0 :: l2, w ≠ [] ∧ ∀ c ∈ w, isWs c = false :=
      fun w hw => ⟨(h w hw).1, fun c hc => ((h w hw).2 c hc).1⟩
    have htne : joinWords (w0 :: l2) ≠ [] :=
      joinWords_ne_nil w0 l2 (h w0 (List.mem_cons_self _ _)).1
    have hchars : ∀ c ∈ joinWords (w0 :: l2),
        isPunct c = false ∧ lowerC c = c := by
      intro c hc
      rcases mem_joinWords c _ hc with h1 | ⟨w, hw, hcw⟩
      · subst h1
        exact ⟨by decide, by decide⟩
      · rcases (h w hw).2 c hcw with ⟨_, h2, h3⟩
        exact ⟨h2, h3⟩
    have hlower : pyLower (joinWords (w0 :: l2)) = joinWords (w0 :: l2) := by
      unfold pyLower
      calc (joinWords (w0 :: l2)).map lowerC
          = (joinWords (w0 :: l2)).map id :=
            List.map_congr_left (fun c hc => (hchars c hc).2)
        _ = joinWords (w0 :: l2) := List.map_id _
    have hpunct : removePunct (joinWords (w0 :: l2)) =
        joinWords (w0 :: l2) := by
      unfold removePunct
      refine List.filter_eq_self.mpr (fun c hc => ?_)
      simp [(hchars c hc).1]
    have hhead : ∃ c r, joinWords (w0 :: l2) = c :: r ∧ isWs c = false := by
      rcases joinWords_head w0 l2 with ⟨r0, hr0⟩
      rcases hlws w0 (List.mem_cons_self _ _) with ⟨hne, hws⟩
      cases w0 with
      | nil => exact absurd rfl hne
      | cons c w2 =>
        exact ⟨c, w2 ++ r0, by rw [hr0]; rfl,
          hws c (List.mem_cons_self _ _)⟩
    have hstrip : pyStrip (joinWords (w0 :: l2)) = joinWords (w0 :: l2) := by
      unfold pyStrip
      have h1 : (joinWords (w0 :: l2)).dropWhile isWs = joinWords (w0 :: l2) :=
        dropWhile_eq_self_head _ (Or.inr hhead)
      rcases joinWords_reverse_head (w0 :: l2) (by simp) hlws
        with ⟨c, r, hrv, hcw⟩
      have h2 : (joinWords (w0 :: l2)).reverse.dropWhile isWs =
          (joinWords (w0 :: l2)).reverse :=
        dropWhile_eq_self_head _ (Or.inr ⟨c, r, hrv, hcw⟩)
      rw [h1, h2, List.reverse_reverse]
    have hcoll : collapseWs (joinWords (w0 :: l2)) = joinWords (w0 :: l2) :=
      collapseWs_joinWords _ hlws
    have hsplit : splitWs (joinWords (w0 :: l2)) = w0 :: l2 :=
      splitWs_joinWords _ hlws
    unfold normalize_location
    rw [if_neg htne, hlower, hstrip, hpunct, hcoll]
    unfold standardize_suffix
    rw [hsplit, hidem]

/-- C8: the Location Normalizer is idempotent — applying lowercasing,
punctuation stripping, whitespace collapsing and last-token street-suffix
expansion a second time changes nothing, for every string input.  (The
source coerces non-string input to `""` or `str(x)` first, so every
normalizer output is the image of a string and the composite claim follows
from the string case proved here.) -/
theorem c8_normalize_idempotent (s : Str) :
    normalize_location (normalize_location s) = normalize_location s := by
  by_cases hs : s = []
  · rw [hs]
    rfl
  · have hxgood : ∀ c ∈ collapseWs (removePunct (pyStrip (pyLower s))),
        isPunct c = false ∧ lowerC c = c := by
      intro c hc
      rcases mem_collapseWs c _ hc with h | h
      · subst h
        exact ⟨by decide, by decide⟩
      · rcases List.mem_filter.mp h with ⟨hmem, hp⟩
        refine ⟨by simpa using hp, ?_⟩
        exact mem_pyLower_lower c s (mem_pyStrip c _ hmem)
    have hwsgood : ∀ w ∈ splitWs (collapseWs (removePunct (pyStrip
        (pyLower s)))), GoodWord w := by
      intro w hw
      rcases splitWsAux_words _ [] (by simp) w hw with ⟨h1, h2⟩
      refine ⟨h1, fun c hc => ?_⟩
      rcases h2 c hc with ⟨h3, h4 | h4⟩
      · simp at h4
      · exact ⟨h3, (hxgood c h4).1, (hxgood c h4).2⟩
    have hn : normalize_location s =
        joinWords (mapLast suffixExpand (splitWs (collapseWs (removePunct
          (pyStrip (pyLower s)))))) := by
      unfold normalize_location standardize_suffix
      rw [if_neg hs]
    rw [hn]
    exact normalize_fix_of_good _ (mapLast_good _ hwsgood)
      (mapLast_expand_idem _)

end OPCrime
